import Mathlib

/-!
Verification development for the heart-of-the-tiles score compiler
(src/src/game/level_loader.ts and the MIDI conversion module concatenated
into it, with the note and baseBeats tables from audio_manager.ts).

JavaScript numbers are modelled as follows: values that the source only
ever holds as nonnegative integers (tick counts, pitch numbers, letter
values) are Nat, signed integer differences are Int, and general numeric
values (bpm, seconds, height multipliers) are Rat.  Thrown exceptions are
modelled with Except over a fixed error enumeration.
-/

namespace HeartTiles

/-- A score string, modelled as its list of characters. -/
abbrev Str := List Char

/-- Error values standing for the distinct exceptions thrown by the source. -/
inductive Err
  | structural
  | unexpectedChar
  | unexpectedToken
  | cantParse
  | incompleteScore
  | lengthOverflow
  | unknownBaseBeats
  | operators
  | ornament
  | arpFatal
  | divByZero
  | fuelOut
  | noTracks
  | shrinkFail
deriving DecidableEq

instance {ε α : Type} [DecidableEq ε] [DecidableEq α] : DecidableEq (Except ε α) := by
  intro a b
  cases a <;> cases b
  case error.error e1 e2 =>
    exact if h : e1 = e2 then .isTrue (by rw [h]) else .isFalse (by simp [h])
  case ok.ok v1 v2 =>
    exact if h : v1 = v2 then .isTrue (by rw [h]) else .isFalse (by simp [h])
  case error.ok e v => exact .isFalse (by simp)
  case ok.error v e => exact .isFalse (by simp)

/-- Row kinds used by the layout pipeline (the RowType values the loader produces). -/
inductive RowType
  | EMPTY
  | SINGLE
  | DOUBLE
deriving DecidableEq

/-- DURATION_MAP from the source: duration letters H..P and their tick values. -/
def DURATION_MAP : Char → Option Nat
  | 'H' => some 256
  | 'I' => some 128
  | 'J' => some 64
  | 'K' => some 32
  | 'L' => some 16
  | 'M' => some 8
  | 'N' => some 4
  | 'O' => some 2
  | 'P' => some 1
  | _ => none

/-- REST_MAP from the source: rest letters Q..Y and their tick values. -/
def REST_MAP : Char → Option Nat
  | 'Q' => some 256
  | 'R' => some 128
  | 'S' => some 64
  | 'T' => some 32
  | 'U' => some 16
  | 'V' => some 8
  | 'W' => some 4
  | 'X' => some 2
  | 'Y' => some 1
  | _ => none

/-- extract_duration_letters: sums the values of recognized duration letters,
ignoring every other character. -/
def extract_duration_letters (s : Str) : Nat :=
  s.foldl (fun total c =>
    match DURATION_MAP c with
    | some v => total + v
    | none => total) 0

/-- extract_rest_letters: sums the values of recognized rest letters,
ignoring every other character. -/
def extract_rest_letters (s : Str) : Nat :=
  s.foldl (fun total c =>
    match REST_MAP c with
    | some v => total + v
    | none => total) 0

/-- is_only_rest_letters: true when the string is nonempty and every
character is a rest letter. -/
def is_only_rest_letters (s : Str) : Bool :=
  s.all (fun c => (REST_MAP c).isSome) && !s.isEmpty

/-- Whitespace for the purposes of String.prototype.trim (the characters
that actually occur in score strings). -/
def is_ws (c : Char) : Bool :=
  c = ' ' || c = '\t' || c = '\n' || c = '\r'

/-- String.prototype.trim on a character list. -/
def trimStr (s : Str) : Str :=
  ((s.dropWhile is_ws).reverse.dropWhile is_ws).reverse

/-- The anchored regular expression match of the source pattern
digit, left angle, content, right angle, where content is nonempty and
contains no line terminator (the dot of the source regex does not match
line terminators).  Returns the digit and the content on success. -/
def group_match : Str → Option (Char × Str)
  | d :: c2 :: rest =>
      if c2 = '<' ∧ d.isDigit ∧ 2 ≤ rest.length ∧ rest.getLast? = some '>' ∧
          rest.dropLast.all (fun c => !(c = '\n' || c = '\r')) then
        some (d, rest.dropLast)
      else none
  | _ => none

/-- A component of the layout notation: duration in ticks plus row kind. -/
structure ParsedComponent where
  duration : Nat
  original_type : RowType
deriving DecidableEq

/-- parse_component from the source. -/
def parse_component (component : Str) : ParsedComponent :=
  let trimmed := trimStr component
  match group_match trimmed with
  | some (d, content) =>
      { duration := extract_duration_letters content
        original_type := if d = '5' then RowType.DOUBLE else RowType.SINGLE }
  | none =>
      if is_only_rest_letters trimmed then
        { duration := extract_rest_letters trimmed, original_type := RowType.EMPTY }
      else
        { duration := extract_duration_letters trimmed, original_type := RowType.SINGLE }

/-- The letter switch of get_length in the rich-notation module
(its own copy of the duration letter values). -/
def length_letter : Char → Option Nat
  | 'H' => some 256
  | 'I' => some 128
  | 'J' => some 64
  | 'K' => some 32
  | 'L' => some 16
  | 'M' => some 8
  | 'N' => some 4
  | 'O' => some 2
  | 'P' => some 1
  | _ => none

/-- The letter switch of get_rest in the rich-notation module. -/
def rest_letter : Char → Option Nat
  | 'Q' => some 256
  | 'R' => some 128
  | 'S' => some 64
  | 'T' => some 32
  | 'U' => some 16
  | 'V' => some 8
  | 'W' => some 4
  | 'X' => some 2
  | 'Y' => some 1
  | _ => none

/-- Loop of get_length: accumulates letter value times base_beats, returns 0
immediately on the first unrecognized character, and raises a length
overflow once the accumulator exceeds 0xffffff. -/
def get_length_go : Str → Nat → Nat → Except Err Nat
  | [], _, delay => .ok delay
  | c :: cs, bb, delay =>
      match length_letter c with
      | none => .ok 0
      | some v =>
          let delay' := delay + v * bb
          if 0xffffff < delay' then .error .lengthOverflow
          else get_length_go cs bb delay'

/-- get_length from the source. -/
def get_length (s : Str) (base_beats : Nat) : Except Err Nat :=
  get_length_go s base_beats 0

/-- Loop of get_rest, same control flow as get_length over the rest letters. -/
def get_rest_go : Str → Nat → Nat → Except Err Nat
  | [], _, delay => .ok delay
  | c :: cs, bb, delay =>
      match rest_letter c with
      | none => .ok 0
      | some v =>
          let delay' := delay + v * bb
          if 0xffffff < delay' then .error .lengthOverflow
          else get_rest_go cs bb delay'

/-- get_rest from the source. -/
def get_rest (s : Str) (base_beats : Nat) : Except Err Nat :=
  get_rest_go s base_beats 0

theorem extract_duration_letters_eq (s : Str) :
    extract_duration_letters s = (s.filterMap DURATION_MAP).sum := by
  suffices h : ∀ acc : Nat,
      s.foldl (fun total c =>
        match DURATION_MAP c with
        | some v => total + v
        | none => total) acc = acc + (s.filterMap DURATION_MAP).sum by
    simpa [extract_duration_letters] using h 0
  induction s with
  | nil => simp
  | cons c cs ih =>
    intro acc
    cases h : DURATION_MAP c with
    | none => simp [List.filterMap_cons, h, ih]
    | some v =>
      simp only [List.foldl_cons, h, List.filterMap_cons, List.sum_cons]
      rw [ih (acc + v)]
      omega

theorem trimStr_of_ends (a : Char) (l : Str) (b : Char)
    (ha : is_ws a = false) (hb : is_ws b = false) :
    trimStr (a :: (l ++ [b])) = a :: (l ++ [b]) := by
  unfold trimStr
  rw [List.dropWhile_cons, ha]
  simp only [Bool.false_eq_true, if_false]
  have hrev : (a :: (l ++ [b])).reverse = b :: (a :: l).reverse := by
    simp
  rw [hrev, List.dropWhile_cons, hb]
  simp only [Bool.false_eq_true, if_false]
  simp

/-- C5 helper: a digit is never trim whitespace. -/
theorem is_ws_of_digit (d : Char) (hd : d.isDigit = true) : is_ws d = false := by
  simp only [is_ws, Bool.or_eq_false_iff, decide_eq_false_iff_not]
  refine ⟨⟨⟨?_, ?_⟩, ?_⟩, ?_⟩ <;> rintro rfl <;> exact absurd hd (by decide)

/-- C5. For a string of the digit-bracket-content-bracket shape, parse_component
sums the recognized duration letters of the content (ignoring every other
character) and the kind is DOUBLE exactly when the digit is 5. -/
theorem c5_parse_component_group (d : Char) (content : Str)
    (hd : d.isDigit = true) (hne : content ≠ [])
    (hnl : content.all (fun c => !(c = '\n' || c = '\r')) = true) :
    parse_component (d :: '<' :: (content ++ ['>'])) =
      { duration := (content.filterMap DURATION_MAP).sum
        original_type := if d = '5' then RowType.DOUBLE else RowType.SINGLE } := by
  have htrim : trimStr (d :: '<' :: (content ++ ['>'])) = d :: '<' :: (content ++ ['>']) := by
    have h1 := trimStr_of_ends d ('<' :: content) '>' (is_ws_of_digit d hd) (by decide)
    simpa using h1
  have hlast : (content ++ ['>']).getLast? = some '>' := List.getLast?_concat content
  have hdrop : (content ++ ['>']).dropLast = content := List.dropLast_concat
  have hmatch : group_match (d :: '<' :: (content ++ ['>'])) = some (d, content) := by
    simp only [group_match]
    rw [if_pos]
    · rw [hdrop]
    · refine ⟨trivial, hd, ?_, hlast, ?_⟩
      · have hlen : content.length ≠ 0 := by simpa using hne
        simp only [List.length_append, List.length_cons, List.length_nil]
        omega
      · rw [hdrop]
        exact hnl
  simp only [parse_component, htrim, hmatch]
  rw [extract_duration_letters_eq]

/-- C5 witness: the spec example, parse_component of 5 angle c dot N angle
gives duration 4 and kind DOUBLE. -/
theorem c5_witness :
    parse_component ('5' :: '<' :: (['c', '.', 'N'] ++ ['>'])) =
      { duration := 4, original_type := RowType.DOUBLE } := by
  have h := c5_parse_component_group '5' ['c', '.', 'N'] (by decide) (by decide) (by decide)
  exact h.trans (by decide)

theorem get_length_go_of_bad : ∀ (s : Str) (bb acc : Nat),
    (∃ c ∈ s, length_letter c = none) →
    get_length_go s bb acc = .ok 0 ∨ get_length_go s bb acc = .error .lengthOverflow := by
  intro s
  induction s with
  | nil =>
    rintro bb acc ⟨c, hc, _⟩
    simp at hc
  | cons a t ih =>
    rintro bb acc ⟨c, hc, hbad⟩
    cases hv : length_letter a with
    | none =>
      left
      simp [get_length_go, hv]
    | some v =>
      have hct : c ∈ t := by
        rcases List.mem_cons.mp hc with rfl | h2
        · rw [hv] at hbad
          exact absurd hbad (by simp)
        · exact h2
      simp only [get_length_go, hv]
      by_cases hov : 0xffffff < acc + v * bb
      · right
        simp [hov]
      · simpa [hov] using ih bb (acc + v * bb) ⟨c, hct, hbad⟩

theorem get_rest_go_of_bad : ∀ (s : Str) (bb acc : Nat),
    (∃ c ∈ s, rest_letter c = none) →
    get_rest_go s bb acc = .ok 0 ∨ get_rest_go s bb acc = .error .lengthOverflow := by
  intro s
  induction s with
  | nil =>
    rintro bb acc ⟨c, hc, _⟩
    simp at hc
  | cons a t ih =>
    rintro bb acc ⟨c, hc, hbad⟩
    cases hv : rest_letter a with
    | none =>
      left
      simp [get_rest_go, hv]
    | some v =>
      have hct : c ∈ t := by
        rcases List.mem_cons.mp hc with rfl | h2
        · rw [hv] at hbad
          exact absurd hbad (by simp)
        · exact h2
      simp only [get_rest_go, hv]
      by_cases hov : 0xffffff < acc + v * bb
      · right
        simp [hov]
      · simpa [hov] using ih bb (acc + v * bb) ⟨c, hct, hbad⟩

set_option maxRecDepth 4000 in
/-- C10 counterexample: with an unrecognized character present, get_length can
still raise a length-overflow error instead of returning 0, when the accumulated
value exceeds the cap before the unrecognized character is reached.  Here 128
letters H at base_beats 512 overflow, so the trailing Z is never seen. -/
theorem c10_counterexample :
    get_length (List.replicate 128 'H' ++ ['Z']) 512 = .error .lengthOverflow ∧
    'Z' ∈ List.replicate 128 'H' ++ ['Z'] ∧
    length_letter 'Z' = none ∧
    (Except.error Err.lengthOverflow : Except Err Nat) ≠ .ok 0 := by
  refine ⟨by decide, by decide, by decide, by decide⟩

/-- C10 amended: on any input containing a character outside its letter set,
get_length returns 0 (discarding what earlier valid letters accumulated) unless
accumulation overflows first, in which case it raises a length-overflow error;
it never returns a nonzero value.  Likewise get_rest for its letter set.  In
contrast, extract_duration_letters of the row-layout path ignores unrecognized
characters and sums the recognized ones. -/
theorem c10_amended :
    (∀ (s : Str) (bb : Nat), (∃ c ∈ s, length_letter c = none) →
        get_length s bb = .ok 0 ∨ get_length s bb = .error .lengthOverflow)
  ∧ (∀ (s : Str) (bb : Nat), (∃ c ∈ s, rest_letter c = none) →
        get_rest s bb = .ok 0 ∨ get_rest s bb = .error .lengthOverflow)
  ∧ get_length ['N', 'Z'] 1 = .ok 0
  ∧ (∀ s : Str, extract_duration_letters s = (s.filterMap DURATION_MAP).sum) := by
  refine ⟨?_, ?_, by decide, extract_duration_letters_eq⟩
  · intro s bb h
    exact get_length_go_of_bad s bb 0 h
  · intro s bb h
    exact get_rest_go_of_bad s bb 0 h

/-- C10 witness: the amended statement applied to the concrete input N then Z. -/
theorem c10_witness :
    get_length ['N', 'Z'] 1 = .ok 0 ∨ get_length ['N', 'Z'] 1 = .error .lengthOverflow :=
  c10_amended.1 ['N', 'Z'] 1 ⟨'Z', by decide, by decide⟩

/-!  SafeDivider: the remainder-carrying exact divider of the MIDI module.
A divide call floors the quotient, adds the lost part to the carried
remainder, and when the remainder reaches the divisor returns one extra
unit and reduces the remainder.  The state is the carried remainder. -/

/-- One SafeDivider.divide call: from dividend, divisor and carried
remainder to the returned quotient and the new remainder. -/
def sd_divide (a b rem : ℚ) : ℤ × ℚ :=
  let c : ℤ := ⌊a / b⌋
  let r := rem + (a - c * b)
  if b ≤ r then (c + 1, r - b) else (c, r)

/-- SafeDivider.divide including the division-by-zero throw of the source. -/
def sd_divide_checked (a b rem : ℚ) : Except Err (ℤ × ℚ) :=
  if b = 0 then .error .divByZero else .ok (sd_divide a b rem)

/-- k consecutive divide calls with the same dividend and divisor on one
instance, returning the sum of the returned quotients and the final
remainder. -/
def sd_iterate (a b : ℚ) : Nat → ℚ → ℤ × ℚ
  | 0, rem => (0, rem)
  | k + 1, rem =>
      let step := sd_divide a b rem
      let tail := sd_iterate a b k step.2
      (step.1 + tail.1, tail.2)

theorem sd_divide_step (a b rem : ℚ) (hb : 0 < b) (h0 : 0 ≤ rem) (h1 : rem < b) :
    ((sd_divide a b rem).1 : ℚ) * b + (sd_divide a b rem).2 = a + rem ∧
    0 ≤ (sd_divide a b rem).2 ∧ (sd_divide a b rem).2 < b := by
  have hbne : b ≠ 0 := ne_of_gt hb
  have hfrac : a - (⌊a / b⌋ : ℚ) * b = b * Int.fract (a / b) := by
    rw [Int.fract]
    field_simp
    ring
  have hf0 : 0 ≤ a - (⌊a / b⌋ : ℚ) * b := by
    rw [hfrac]
    exact mul_nonneg (le_of_lt hb) (Int.fract_nonneg _)
  have hf1 : a - (⌊a / b⌋ : ℚ) * b < b := by
    rw [hfrac]
    calc b * Int.fract (a / b) < b * 1 := by
          exact mul_lt_mul_of_pos_left (Int.fract_lt_one _) hb
      _ = b := mul_one b
  unfold sd_divide
  by_cases hcase : b ≤ rem + (a - (⌊a / b⌋ : ℚ) * b)
  · simp only [hcase, if_true]
    refine ⟨?_, ?_, ?_⟩
    · push_cast
      ring
    · linarith
    · linarith
  · simp only [hcase, if_false]
    exact ⟨by ring, by linarith, by linarith⟩

theorem sd_iterate_invariant (a b : ℚ) (hb : 0 < b) :
    ∀ (k : Nat) (rem : ℚ), 0 ≤ rem → rem < b →
      ((sd_iterate a b k rem).1 : ℚ) * b + (sd_iterate a b k rem).2 = k * a + rem ∧
      0 ≤ (sd_iterate a b k rem).2 ∧ (sd_iterate a b k rem).2 < b := by
  intro k
  induction k with
  | zero =>
    intro rem h0 h1
    simp [sd_iterate, h0, h1]
  | succ k ih =>
    intro rem h0 h1
    obtain ⟨hs, hs0, hs1⟩ := sd_divide_step a b rem hb h0 h1
    obtain ⟨ht, ht0, ht1⟩ := ih (sd_divide a b rem).2 hs0 hs1
    have hunfold : sd_iterate a b (k + 1) rem =
        ((sd_divide a b rem).1 + (sd_iterate a b k (sd_divide a b rem).2).1,
          (sd_iterate a b k (sd_divide a b rem).2).2) := rfl
    rw [hunfold]
    refine ⟨?_, ht0, ht1⟩
    push_cast
    nlinarith [hs, ht]

/-- C1. For every nonnegative integer total a and positive integer n, the sum
of the quotients returned by n consecutive divide calls with arguments a and n
on a fresh SafeDivider instance is exactly a. -/
theorem c1_safe_divider_exact (a n : Nat) (hn : 0 < n) :
    (sd_iterate (a : ℚ) (n : ℚ) n 0).1 = (a : ℤ) := by
  have hbq : (0 : ℚ) < (n : ℚ) := by exact_mod_cast hn
  obtain ⟨hsum, hr0, hr1⟩ :=
    sd_iterate_invariant (a : ℚ) (n : ℚ) hbq n 0 le_rfl hbq
  set S : ℤ := (sd_iterate (a : ℚ) (n : ℚ) n 0).1 with hS
  set r : ℚ := (sd_iterate (a : ℚ) (n : ℚ) n 0).2 with hr
  have hsum' : (S : ℚ) * n + r = n * a := by
    rw [hsum]
    ring
  have hd : ((a : ℤ) - S : ℚ) * n = r := by
    push_cast
    nlinarith [hsum']
  have hlow : (0 : ℚ) ≤ ((a : ℤ) - S : ℚ) := by
    by_contra hneg
    push_neg at hneg
    have : ((a : ℤ) - S : ℚ) * n < 0 := mul_neg_of_neg_of_pos hneg hbq
    linarith [hd, hr0]
  have hhigh : ((a : ℤ) - S : ℚ) < 1 := by
    by_contra hge
    push_neg at hge
    have : (n : ℚ) ≤ ((a : ℤ) - S : ℚ) * n := le_mul_of_one_le_left (le_of_lt hbq) hge
    linarith [hd, hr1]
  have hlow' : (0 : ℤ) ≤ (a : ℤ) - S := by exact_mod_cast hlow
  have hhigh' : ((a : ℤ) - S) < 1 := by exact_mod_cast hhigh
  omega

/-- C1 witness: three consecutive divide calls of 10 by 3 sum to exactly 10. -/
theorem c1_witness : 0 < 3 ∧ (sd_iterate (10 : ℚ) (3 : ℚ) 3 0).1 = (10 : ℤ) := by
  constructor
  · decide
  · have h := c1_safe_divider_exact 10 3 (by decide)
    have h10 : ((10 : Nat) : ℚ) = (10 : ℚ) := by norm_num
    have h3 : ((3 : Nat) : ℚ) = (3 : ℚ) := by norm_num
    rw [h10, h3] at h
    exact h.trans (by norm_num)

/-!  The rich-notation message stream.  A ParsedMessage is one of
note on (type 0, value the pitch), note off (type 1), delay (type 2,
value the tick count) or ignore (type 3). -/

/-- A message of the rich-notation compiler. -/
structure ParsedMessage where
  type : Nat
  value : Nat
deriving DecidableEq

/-- Number of occurrences of a marker value in the pending note list. -/
def count_of (notes : List Nat) (k : Nat) : Nat :=
  (notes.filter (fun n => n = k)).length

/-- The operator_count computed by process_notes: one per operator kind
present, the divider included. -/
def operator_count (notes : List Nat) : Nat :=
  (if 0 < count_of notes 2 then 1 else 0) + (if 0 < count_of notes 3 then 1 else 0) +
  (if 0 < count_of notes 4 then 1 else 0) + (if 0 < count_of notes 5 then 1 else 0) +
  (if 0 < count_of notes 6 then 1 else 0)

/-- Modelled from the claim wording of C6 (not from the source): the number
of distinct non-divider operator kinds present in the pending list. -/
def non_divider_kinds (notes : List Nat) : Nat :=
  (if 0 < count_of notes 3 then 1 else 0) + (if 0 < count_of notes 4 then 1 else 0) +
  (if 0 < count_of notes 5 then 1 else 0) + (if 0 < count_of notes 6 then 1 else 0)

/-- The marker loop shared by the three arpeggio branches of process_notes:
walking the pending list, a marker occurrence carves a slice of
amul times the remaining length divided by den through the exact divider
(a slice larger than the remaining length is a fatal error), and any other
entry emits a note-on.  Returns the emitted messages and the length left. -/
def arp_steps (amul den marker : Nat) :
    List Nat → Nat → ℚ → Except Err (List ParsedMessage × Nat)
  | [], length, _ => .ok ([], length)
  | n :: rest, length, rem =>
      if n = marker then
        match sd_divide_checked ((amul * length : Nat) : ℚ) (den : ℚ) rem with
        | .error e => .error e
        | .ok (q, rem') =>
            if (length : ℤ) < q then .error .arpFatal
            else
              match arp_steps amul den marker rest (length - q.toNat) rem' with
              | .error e => .error e
              | .ok (ms, lf) => .ok (⟨2, q.toNat⟩ :: ms, lf)
      else
        match arp_steps amul den marker rest length rem with
        | .error e => .error e
        | .ok (ms, lf) => .ok (⟨0, n⟩ :: ms, lf)

/-- An arpeggio branch of process_notes: the marker loop, then a final delay
for the remaining length and a note-off for every non-marker entry. -/
def arp_branch (amul den marker : Nat) (notes : List Nat) (length : Nat) :
    Except Err (List ParsedMessage) :=
  match arp_steps amul den marker notes length 0 with
  | .error e => .error e
  | .ok (ms, lf) =>
      .ok (ms ++ [⟨2, lf⟩] ++ (notes.filter (fun n => n ≠ marker)).map (fun n => ⟨1, n⟩))

/-- The ornament loop of process_notes: alternates the two pitches with a
fixed step of bpm times 32 over 720 through the exact divider until the step
reaches the remaining length.  The source loop always terminates when the
bpm is positive, as it is at every call site; the fuel bounds the number of
iterations in the model. -/
def ornament_go (bpm32 : ℚ) (pa pb : Nat) :
    Nat → Bool → Nat → ℚ → Except Err (List ParsedMessage)
  | 0, _, _, _ => .error .fuelOut
  | fuel + 1, flip, length, rem =>
      let cur := if flip then pb else pa
      match sd_divide_checked bpm32 (720 : ℚ) rem with
      | .error e => .error e
      | .ok (q, rem') =>
          if (length : ℤ) ≤ q then .ok [⟨0, cur⟩, ⟨2, length⟩, ⟨1, cur⟩]
          else
            match ornament_go bpm32 pa pb fuel (!flip) (length - q.toNat) rem' with
            | .error e => .error e
            | .ok ms => .ok (⟨0, cur⟩ :: ⟨2, q.toNat⟩ :: ⟨1, cur⟩ :: ms)

/-- One flushed chord group of the plain branch: note-ons, the group delay,
then note-offs. -/
def normal_flush (temp : List Nat) (delay : Nat) : List ParsedMessage :=
  temp.map (fun n => ⟨0, n⟩) ++ [⟨2, delay⟩] ++ temp.map (fun n => ⟨1, n⟩)

/-- The plain branch of process_notes: dividers split the pending list into
groups, each group receiving an equal share of the length through the exact
divider. -/
def normal_go (length divisor : Nat) :
    List Nat → List Nat → ℚ → Except Err (List ParsedMessage)
  | [], temp, rem =>
      match sd_divide_checked (length : ℚ) (divisor : ℚ) rem with
      | .error e => .error e
      | .ok (q, _) => .ok (normal_flush temp q.toNat)
  | n :: rest, temp, rem =>
      if n = 2 then
        match sd_divide_checked (length : ℚ) (divisor : ℚ) rem with
        | .error e => .error e
        | .ok (q, rem') =>
            match normal_go length divisor rest [] rem' with
            | .error e => .error e
            | .ok ms => .ok (normal_flush temp q.toNat ++ ms)
      else normal_go length divisor rest (temp ++ [n]) rem

/-- process_notes from the source: validates the operator combination, then
dispatches to the arpeggio, ornament or plain branch. -/
def process_notes (fuel : Nat) (notes : List Nat) (length : Nat) (bpm : ℚ) :
    Except Err (List ParsedMessage) :=
  let div := count_of notes 2
  let arp1 := count_of notes 3
  let arp2 := count_of notes 4
  let arp3 := count_of notes 5
  let arp4 := count_of notes 6
  if 1 < operator_count notes ∨ 1 < arp4 then .error .operators
  else
    let divisor := div + 1
    if 0 < arp1 then
      arp_branch 1 (if arp1 = 1 then 10 else 10 * (arp1 - 1)) 3 notes length
    else if 0 < arp2 then
      arp_branch 3 (10 * arp2) 4 notes length
    else if 0 < arp3 then
      arp_branch 3 (20 * arp3) 5 notes length
    else if 0 < arp4 then
      if notes.length = 3 ∧ notes.getD 1 0 = 6 ∧ 20 ≤ notes.getD 0 0 ∧ 20 ≤ notes.getD 2 0 then
        ornament_go (bpm * 32) (notes.getD 0 0) (notes.getD 2 0) fuel false length 0
      else .error .ornament
    else
      normal_go length divisor notes [] 0

theorem sd_divide_checked_error (a b rem : ℚ) (e : Err)
    (h : sd_divide_checked a b rem = .error e) : e = .divByZero := by
  unfold sd_divide_checked at h
  split at h
  · cases h
    rfl
  · cases h

theorem arp_steps_error_shape (amul den marker : Nat) :
    ∀ (notes : List Nat) (length : Nat) (rem : ℚ) (e : Err),
      arp_steps amul den marker notes length rem = .error e →
      e = .arpFatal ∨ e = .divByZero := by
  intro notes
  induction notes with
  | nil =>
    intro length rem e h
    simp [arp_steps] at h
  | cons n rest ih =>
    intro length rem e h
    simp only [arp_steps] at h
    split at h
    · split at h
      · rename_i e2 heq
        cases h
        right
        exact sd_divide_checked_error _ _ _ _ heq
      · rename_i q rem' heq
        split at h
        · cases h
          left
          rfl
        · split at h
          · rename_i e2 heq2
            cases h
            exact ih _ _ _ heq2
          · cases h
    · split at h
      · rename_i e2 heq
        cases h
        exact ih _ _ _ heq
      · cases h

theorem arp_branch_error_shape (amul den marker : Nat) (notes : List Nat) (length : Nat)
    (e : Err) (h : arp_branch amul den marker notes length = .error e) :
    e = .arpFatal ∨ e = .divByZero := by
  unfold arp_branch at h
  split at h
  · rename_i e2 heq
    cases h
    exact arp_steps_error_shape amul den marker notes length 0 e heq
  · cases h

theorem ornament_go_error_shape (bpm32 : ℚ) (pa pb : Nat) :
    ∀ (fuel : Nat) (flip : Bool) (length : Nat) (rem : ℚ) (e : Err),
      ornament_go bpm32 pa pb fuel flip length rem = .error e →
      e = .fuelOut ∨ e = .divByZero := by
  intro fuel
  induction fuel with
  | zero =>
    intro flip length rem e h
    simp only [ornament_go] at h
    cases h
    left
    rfl
  | succ f ih =>
    intro flip length rem e h
    simp only [ornament_go] at h
    split at h
    · rename_i e2 heq
      cases h
      right
      exact sd_divide_checked_error _ _ _ _ heq
    · rename_i q rem' heq
      split at h
      · cases h
      · split at h
        · rename_i e2 heq2
          cases h
          exact ih _ _ _ _ heq2
        · cases h

theorem normal_go_error_shape (length divisor : Nat) :
    ∀ (notes temp : List Nat) (rem : ℚ) (e : Err),
      normal_go length divisor notes temp rem = .error e → e = .divByZero := by
  intro notes
  induction notes with
  | nil =>
    intro temp rem e h
    simp only [normal_go] at h
    split at h
    · rename_i e2 heq
      cases h
      exact sd_divide_checked_error _ _ _ _ heq
    · cases h
  | cons n rest ih =>
    intro temp rem e h
    simp only [normal_go] at h
    split at h
    · split at h
      · rename_i e2 heq
        cases h
        exact sd_divide_checked_error _ _ _ _ heq
      · rename_i q rem' heq
        split at h
        · rename_i e2 heq2
          cases h
          exact ih _ _ _ heq2
        · cases h
    · exact ih _ _ _ h

/-- C6 counterexample: a pending list holding a divider and one arpeggio
marker has only one distinct non-divider operator kind and no ornament marker,
so the claim predicts no operator-validation error; the source still raises
one, because its operator_count includes the divider. -/
theorem c6_counterexample :
    process_notes 10 [2, 3] 60 120 = .error .operators ∧
    non_divider_kinds [2, 3] ≤ 1 ∧ count_of [2, 3] 6 ≤ 1 := by
  refine ⟨?_, by decide, by decide⟩
  unfold process_notes
  rw [if_pos]
  left
  decide

/-- C6 amended: the operator-validation error is raised exactly when more than
one distinct operator kind is present, the divider included, or more than one
ornament marker; the ornament error is raised exactly when validation passes,
exactly one ornament marker is present, and the pending list is not of the
shape pitch, marker, pitch with both pitches at least 20.  In particular a
pending list violating neither condition raises neither error. -/
theorem c6_amended (fuel : Nat) (notes : List Nat) (length : Nat) (bpm : ℚ) :
    (process_notes fuel notes length bpm = .error .operators ↔
        1 < operator_count notes ∨ 1 < count_of notes 6)
  ∧ (process_notes fuel notes length bpm = .error .ornament ↔
        (¬(1 < operator_count notes ∨ 1 < count_of notes 6) ∧ count_of notes 6 = 1 ∧
          ¬(notes.length = 3 ∧ notes.getD 1 0 = 6 ∧ 20 ≤ notes.getD 0 0 ∧
              20 ≤ notes.getD 2 0))) := by
  by_cases hval : 1 < operator_count notes ∨ 1 < count_of notes 6
  · have hpn : process_notes fuel notes length bpm = .error .operators := by
      unfold process_notes
      rw [if_pos hval]
    rw [hpn]
    constructor
    · simp [hval]
    · simp [hval]
  · have hbr_op : ∀ amul den marker,
        arp_branch amul den marker notes length ≠ .error .operators := by
      intro amul den marker hcontr
      rcases arp_branch_error_shape amul den marker notes length _ hcontr with h | h <;>
        exact Err.noConfusion h
    have hbr_orn : ∀ amul den marker,
        arp_branch amul den marker notes length ≠ .error .ornament := by
      intro amul den marker hcontr
      rcases arp_branch_error_shape amul den marker notes length _ hcontr with h | h <;>
        exact Err.noConfusion h
    have hpn : process_notes fuel notes length bpm =
        (if 0 < count_of notes 3 then
          arp_branch 1 (if count_of notes 3 = 1 then 10 else 10 * (count_of notes 3 - 1)) 3
            notes length
        else if 0 < count_of notes 4 then arp_branch 3 (10 * count_of notes 4) 4 notes length
        else if 0 < count_of notes 5 then arp_branch 3 (20 * count_of notes 5) 5 notes length
        else if 0 < count_of notes 6 then
          if notes.length = 3 ∧ notes.getD 1 0 = 6 ∧ 20 ≤ notes.getD 0 0 ∧
              20 ≤ notes.getD 2 0 then
            ornament_go (bpm * 32) (notes.getD 0 0) (notes.getD 2 0) fuel false length 0
          else .error .ornament
        else normal_go length (count_of notes 2 + 1) notes [] 0) := by
      unfold process_notes
      rw [if_neg hval]
    rw [hpn]
    by_cases h3 : 0 < count_of notes 3
    · rw [if_pos h3]
      have h6 : ¬ count_of notes 6 = 1 := by
        intro h6
        refine hval (Or.inl ?_)
        simp only [operator_count]
        split_ifs <;> omega
      constructor
      · simp only [iff_false_intro hval]
        exact ⟨fun h => absurd h (hbr_op _ _ _), fun h => absurd h (by simp)⟩
      · constructor
        · intro h
          exact absurd h (hbr_orn _ _ _)
        · rintro ⟨-, hc6, -⟩
          exact absurd hc6 h6
    · rw [if_neg h3]
      by_cases h4 : 0 < count_of notes 4
      · rw [if_pos h4]
        have h6 : ¬ count_of notes 6 = 1 := by
          intro h6
          refine hval (Or.inl ?_)
          simp only [operator_count]
          split_ifs <;> omega
        constructor
        · exact ⟨fun h => absurd h (hbr_op _ _ _), fun h => absurd h hval⟩
        · constructor
          · intro h
            exact absurd h (hbr_orn _ _ _)
          · rintro ⟨-, hc6, -⟩
            exact absurd hc6 h6
      · rw [if_neg h4]
        by_cases h5 : 0 < count_of notes 5
        · rw [if_pos h5]
          have h6 : ¬ count_of notes 6 = 1 := by
            intro h6
            refine hval (Or.inl ?_)
            simp only [operator_count]
            split_ifs <;> omega
          constructor
          · exact ⟨fun h => absurd h (hbr_op _ _ _), fun h => absurd h hval⟩
          · constructor
            · intro h
              exact absurd h (hbr_orn _ _ _)
            · rintro ⟨-, hc6, -⟩
              exact absurd hc6 h6
        · rw [if_neg h5]
          by_cases h6 : 0 < count_of notes 6
          · rw [if_pos h6]
            have hc6 : count_of notes 6 = 1 := by
              rcases Nat.lt_or_ge 1 (count_of notes 6) with hgt | hle
              · exact absurd (Or.inr hgt) hval
              · omega
            by_cases hshape : notes.length = 3 ∧ notes.getD 1 0 = 6 ∧
                20 ≤ notes.getD 0 0 ∧ 20 ≤ notes.getD 2 0
            · rw [if_pos hshape]
              have horn_op : ornament_go (bpm * 32) (notes.getD 0 0) (notes.getD 2 0)
                  fuel false length 0 ≠ .error .operators := by
                intro hcontr
                rcases ornament_go_error_shape _ _ _ _ _ _ _ _ hcontr with h | h <;>
                  exact Err.noConfusion h
              have horn_orn : ornament_go (bpm * 32) (notes.getD 0 0) (notes.getD 2 0)
                  fuel false length 0 ≠ .error .ornament := by
                intro hcontr
                rcases ornament_go_error_shape _ _ _ _ _ _ _ _ hcontr with h | h <;>
                  exact Err.noConfusion h
              constructor
              · exact ⟨fun h => absurd h horn_op, fun h => absurd h hval⟩
              · constructor
                · intro h
                  exact absurd h horn_orn
                · rintro ⟨-, -, hns⟩
                  exact absurd hshape hns
            · rw [if_neg hshape]
              constructor
              · exact ⟨fun h => by simp at h, fun h => absurd h hval⟩
              · exact ⟨fun _ => ⟨hval, hc6, hshape⟩, fun _ => rfl⟩
          · rw [if_neg h6]
            have hnorm_op : normal_go length (count_of notes 2 + 1) notes [] 0 ≠
                .error .operators := by
              intro hcontr
              exact Err.noConfusion (normal_go_error_shape _ _ _ _ _ _ hcontr)
            have hnorm_orn : normal_go length (count_of notes 2 + 1) notes [] 0 ≠
                .error .ornament := by
              intro hcontr
              exact Err.noConfusion (normal_go_error_shape _ _ _ _ _ _ hcontr)
            constructor
            · exact ⟨fun h => absurd h hnorm_op, fun h => absurd h hval⟩
            · constructor
              · intro h
                exact absurd h hnorm_orn
              · rintro ⟨-, hc6, -⟩
                omega

/-!  Track alignment within a part: calculate_track_length_diff walks two
message lists one tick at a time, shrink_track removes ticks from the end of
a track, and verify_track_length aligns every track of a part against the
first. -/

/-- A parsed track: its base beats multiplier and its message stream. -/
structure ParsedTrack where
  base_beats : Nat
  messages : List ParsedMessage
deriving DecidableEq

/-- Total delay ticks of a message stream: the sum of the values of its
type 2 messages. -/
def delay_total (msgs : List ParsedMessage) : Nat :=
  (msgs.map (fun m => if m.type = 2 then m.value else 0)).sum

/-- The inner while loop of calculate_track_length_diff: advance past
messages that hold no remaining tick and remove one tick from the first
delay message with a nonzero value.  Returns none when no tick is left,
which the caller treats as that side being exhausted. -/
def take_tick : List ParsedMessage → Option (List ParsedMessage)
  | [] => none
  | m :: rest =>
      if m.type = 2 ∧ m.value ≠ 0 then some (⟨2, m.value - 1⟩ :: rest)
      else take_tick rest

/-- The outer loop of calculate_track_length_diff: repeatedly remove one
tick from each side, counting the difference, with the overflow guard of
the source.  The fuel only bounds the iteration count of the while loop. -/
def diff_loop : Nat → List ParsedMessage → List ParsedMessage → ℤ → Except Err ℤ
  | 0, _, _, _ => .error .fuelOut
  | fuel + 1, l1, l2, d =>
      if l1 = [] ∧ l2 = [] then .ok d
      else
        let p1 : List ParsedMessage × ℤ :=
          match take_tick l1 with
          | some l => (l, d + 1)
          | none => ([], d)
        let p2 : List ParsedMessage × ℤ :=
          match take_tick l2 with
          | some l => (l, p1.2 - 1)
          | none => ([], p1.2)
        if (0xfffffff : ℤ) < p2.2 ∨ p2.2 < -(0xfffffff : ℤ) then .error .lengthOverflow
        else diff_loop fuel p1.1 p2.1 p2.2

/-- calculate_track_length_diff from the source. -/
def calculate_track_length_diff (fuel : Nat) (messages1 messages2 : List ParsedMessage) :
    Except Err ℤ :=
  diff_loop fuel messages1 messages2 0

/-- The backwards pass of shrink_track, processing the list from its end:
consume the requested amount from trailing delay values.  Returns the new
list and the amount still unconsumed. -/
def shrink_go (amount : Nat) : List ParsedMessage → List ParsedMessage × Nat
  | [] => ([], amount)
  | m :: rest =>
      let tail := shrink_go amount rest
      if 0 < tail.2 ∧ m.type = 2 then
        if m.value ≤ tail.2 then (⟨2, 0⟩ :: tail.1, tail.2 - m.value)
        else (⟨2, m.value - tail.2⟩ :: tail.1, 0)
      else (m :: tail.1, tail.2)

/-- The forward cleanup pass of shrink_track: note-on and note-off pairs
with no positive delay between them are reclassified as ignore messages.
The loop advances the index by one per iteration and the list length never
changes, so the caller passes the list length as the iteration count. -/
def cleanup_go : Nat → List ParsedMessage → Nat → List Nat → List ParsedMessage
  | 0, msgs, _, _ => msgs
  | fc + 1, msgs, i, stack =>
      if i < msgs.length then
        if (msgs.getD i ⟨3, 0⟩).type = 2 ∧ 0 < (msgs.getD i ⟨3, 0⟩).value then
          cleanup_go fc msgs (i + 1) []
        else if (msgs.getD i ⟨3, 0⟩).type = 0 then
          cleanup_go fc msgs (i + 1) (stack ++ [i])
        else if (msgs.getD i ⟨3, 0⟩).type = 1 then
          match stack.find? (fun j =>
              (msgs.getD j ⟨3, 0⟩).type = 0 ∧
              (msgs.getD j ⟨3, 0⟩).value = (msgs.getD i ⟨3, 0⟩).value) with
          | some j => cleanup_go fc ((msgs.set i ⟨3, 0⟩).set j ⟨3, 0⟩) (i + 1) stack
          | none => cleanup_go fc msgs (i + 1) stack
        else cleanup_go fc msgs (i + 1) stack
      else msgs

/-- shrink_track from the source: consume the amount from the end, fail if
any of it is left, then run the orphan cleanup. -/
def shrink_track (msgs : List ParsedMessage) (amount : Nat) :
    Except Err (List ParsedMessage) :=
  let p := shrink_go amount msgs
  if p.2 ≠ 0 then .error .shrinkFail
  else .ok (cleanup_go p.1.length p.1 0 [])

/-- Alignment of one non-reference track of verify_track_length against
track 0: shrink when longer, append one trailing delay when shorter. -/
def verify_one (fuel : Nat) (t0 t : ParsedTrack) : Except Err ParsedTrack :=
  match calculate_track_length_diff fuel t0.messages t.messages with
  | .error e => .error e
  | .ok d =>
      if d < 0 then
        match shrink_track t.messages (-d).toNat with
        | .error e => .error e
        | .ok m2 => .ok ⟨t.base_beats, m2⟩
      else if 0 < d then .ok ⟨t.base_beats, t.messages ++ [⟨2, d.toNat⟩]⟩
      else .ok t

/-- The loop of verify_track_length over the tracks after the first. -/
def verify_rest (fuel : Nat) (t0 : ParsedTrack) : List ParsedTrack →
    Except Err (List ParsedTrack)
  | [] => .ok []
  | t :: ts =>
      match verify_one fuel t0 t with
      | .error e => .error e
      | .ok t2 =>
          match verify_rest fuel t0 ts with
          | .error e => .error e
          | .ok ts2 => .ok (t2 :: ts2)

/-- verify_track_length from the source. -/
def verify_track_length (fuel : Nat) : List ParsedTrack → Except Err (List ParsedTrack)
  | [] => .error .noTracks
  | t0 :: rest =>
      match verify_rest fuel t0 rest with
      | .error e => .error e
      | .ok rest2 => .ok (t0 :: rest2)

theorem take_tick_none (l : List ParsedMessage) (h : take_tick l = none) :
    delay_total l = 0 := by
  induction l with
  | nil => rfl
  | cons m rest ih =>
    simp only [take_tick] at h
    split at h
    · cases h
    · rename_i hcond
      have hm : (if m.type = 2 then m.value else 0) = 0 := by
        split
        · rename_i ht
          by_cases hv : m.value = 0
          · exact hv
          · exact absurd ⟨ht, hv⟩ hcond
        · rfl
      simp only [delay_total, List.map_cons, List.sum_cons, hm]
      simpa [delay_total] using ih h

theorem take_tick_some (l l2 : List ParsedMessage) (h : take_tick l = some l2) :
    delay_total l = delay_total l2 + 1 := by
  induction l generalizing l2 with
  | nil => cases h
  | cons m rest ih =>
    simp only [take_tick] at h
    split at h
    · rename_i hcond
      cases h
      simp only [delay_total, List.map_cons, List.sum_cons, hcond.1, if_pos]
      have := hcond.2
      omega
    · rename_i hcond
      have hm : (if m.type = 2 then m.value else 0) = 0 := by
        split
        · rename_i ht
          by_cases hv : m.value = 0
          · exact hv
          · exact absurd ⟨ht, hv⟩ hcond
        · rfl
      simp only [delay_total, List.map_cons, List.sum_cons, hm]
      have := ih _ h
      simp only [delay_total] at this
      omega

theorem diff_loop_ok (fuel : Nat) :
    ∀ (l1 l2 : List ParsedMessage) (d d2 : ℤ),
      diff_loop fuel l1 l2 d = .ok d2 →
      d2 = d + (delay_total l1 : ℤ) - (delay_total l2 : ℤ) := by
  induction fuel with
  | zero =>
    intro l1 l2 d d2 h
    cases h
  | succ f ih =>
    intro l1 l2 d d2 h
    simp only [diff_loop] at h
    split at h
    · rename_i hnil
      cases h
      rw [hnil.1, hnil.2]
      simp [delay_total]
    · split at h
      · cases h
      · rename_i hover
        have h0 : delay_total ([] : List ParsedMessage) = 0 := rfl
        rcases h1 : take_tick l1 with _ | u1 <;> rcases h2 : take_tick l2 with _ | u2 <;>
          rw [h1, h2] at h <;> simp only [] at h
        · have e1 := take_tick_none _ h1
          have e2 := take_tick_none _ h2
          have hrec := ih _ _ _ _ h
          omega
        · have e1 := take_tick_none _ h1
          have e2 := take_tick_some _ _ h2
          have hrec := ih _ _ _ _ h
          omega
        · have e1 := take_tick_some _ _ h1
          have e2 := take_tick_none _ h2
          have hrec := ih _ _ _ _ h
          omega
        · have e1 := take_tick_some _ _ h1
          have e2 := take_tick_some _ _ h2
          have hrec := ih _ _ _ _ h
          omega

theorem delay_total_append (l1 l2 : List ParsedMessage) :
    delay_total (l1 ++ l2) = delay_total l1 + delay_total l2 := by
  simp [delay_total]

theorem shrink_go_spec (amount : Nat) : ∀ (l : List ParsedMessage),
    delay_total (shrink_go amount l).1 = delay_total l - amount ∧
    (shrink_go amount l).2 = amount - delay_total l := by
  intro l
  induction l with
  | nil => simp [shrink_go, delay_total]
  | cons m rest ih =>
    obtain ⟨ih1, ih2⟩ := ih
    simp only [shrink_go]
    split
    · rename_i hcond
      obtain ⟨hpos, htype⟩ := hcond
      split
      · rename_i hle
        constructor
        · simp only [delay_total, List.map_cons, List.sum_cons, htype, if_pos] at ih1 ih2 ⊢
          omega
        · simp only [delay_total, List.map_cons, List.sum_cons, htype, if_pos] at ih1 ih2 ⊢
          omega
      · rename_i hgt
        constructor
        · simp only [delay_total, List.map_cons, List.sum_cons, htype, if_pos] at ih1 ih2 ⊢
          omega
        · simp only [delay_total, List.map_cons, List.sum_cons, htype, if_pos] at ih1 ih2 ⊢
          omega
    · rename_i hcond
      by_cases htype : m.type = 2
      · have hz : (shrink_go amount rest).2 = 0 := by
          rcases Nat.eq_zero_or_pos (shrink_go amount rest).2 with h | h
          · exact h
          · exact absurd ⟨h, htype⟩ hcond
        constructor
        · simp only [delay_total, List.map_cons, List.sum_cons, htype, if_pos] at ih1 ih2 ⊢
          omega
        · simp only [delay_total, List.map_cons, List.sum_cons, htype, if_pos] at ih1 ih2 ⊢
          omega
      · constructor
        · simp only [delay_total, List.map_cons, List.sum_cons, htype, if_neg,
            not_false_iff] at ih1 ih2 ⊢
          omega
        · simp only [delay_total, List.map_cons, List.sum_cons, htype, if_neg,
            not_false_iff] at ih1 ih2 ⊢
          omega

theorem delay_total_set (msgs : List ParsedMessage) (j : Nat)
    (hj : (msgs.getD j ⟨3, 0⟩).type ≠ 2) :
    delay_total (msgs.set j ⟨3, 0⟩) = delay_total msgs := by
  induction msgs generalizing j with
  | nil => rfl
  | cons m rest ih =>
    cases j with
    | zero =>
      have hm : m.type ≠ 2 := by simpa using hj
      simp [delay_total, List.set, hm]
    | succ jj =>
      have hgd : (rest.getD jj ⟨3, 0⟩).type ≠ 2 := by simpa using hj
      simp only [List.set, delay_total, List.map_cons, List.sum_cons]
      have hr := ih jj hgd
      simp only [delay_total] at hr
      omega

theorem cleanup_go_delay_total : ∀ (fc : Nat) (msgs : List ParsedMessage) (i : Nat)
    (stack : List Nat), delay_total (cleanup_go fc msgs i stack) = delay_total msgs := by
  intro fc
  induction fc with
  | zero =>
    intro msgs i stack
    rfl
  | succ f ih =>
    intro msgs i stack
    rw [cleanup_go]
    by_cases h : i < msgs.length
    · rw [if_pos h]
      by_cases h1 : (msgs.getD i ⟨3, 0⟩).type = 2 ∧ 0 < (msgs.getD i ⟨3, 0⟩).value
      · rw [if_pos h1]
        exact ih msgs (i + 1) []
      · rw [if_neg h1]
        by_cases h2 : (msgs.getD i ⟨3, 0⟩).type = 0
        · rw [if_pos h2]
          exact ih msgs (i + 1) (stack ++ [i])
        · rw [if_neg h2]
          by_cases h3 : (msgs.getD i ⟨3, 0⟩).type = 1
          · rw [if_pos h3]
            rcases hfind : stack.find? (fun j =>
                (msgs.getD j ⟨3, 0⟩).type = 0 ∧
                (msgs.getD j ⟨3, 0⟩).value = (msgs.getD i ⟨3, 0⟩).value) with _ | j
            · exact ih msgs (i + 1) stack
            · have hfound := List.find?_some hfind
              have hj_type0 : (msgs.getD j ⟨3, 0⟩).type = 0 :=
                (of_decide_eq_true hfound).1
              have h1set : delay_total (msgs.set i ⟨3, 0⟩) = delay_total msgs := by
                apply delay_total_set
                rw [h3]
                omega
              have h2set : delay_total ((msgs.set i ⟨3, 0⟩).set j ⟨3, 0⟩) =
                  delay_total (msgs.set i ⟨3, 0⟩) := by
                apply delay_total_set
                by_cases hij : j = i
                · subst hij
                  have hg : ((msgs.set j ⟨3, 0⟩).get? j) = some ⟨3, 0⟩ :=
                    List.get?_set_eq_of_lt _ h
                  show (((msgs.set j ⟨3, 0⟩).get? j).getD ⟨3, 0⟩).type ≠ 2
                  rw [hg]
                  decide
                · show (((msgs.set i ⟨3, 0⟩).get? j).getD ⟨3, 0⟩).type ≠ 2
                  rw [List.get?_set_ne _ _ (fun hh => hij hh.symm)]
                  show ((msgs.getD j ⟨3, 0⟩)).type ≠ 2
                  rw [hj_type0]
                  omega
              show delay_total
                  (cleanup_go f ((msgs.set i ⟨3, 0⟩).set j ⟨3, 0⟩) (i + 1) stack) =
                delay_total msgs
              rw [ih _ (i + 1) stack, h2set, h1set]
          · rw [if_neg h3]
            exact ih msgs (i + 1) stack
    · rw [if_neg h]

theorem shrink_track_total (msgs : List ParsedMessage) (amount : Nat)
    (m2 : List ParsedMessage) (h : shrink_track msgs amount = .ok m2) :
    amount ≤ delay_total msgs ∧ delay_total m2 = delay_total msgs - amount := by
  unfold shrink_track at h
  simp only [] at h
  obtain ⟨hs1, hs2⟩ := shrink_go_spec amount msgs
  split at h
  · cases h
  · rename_i hz
    cases h
    have hrem : amount - delay_total msgs = 0 := by
      rw [← hs2]
      omega
    refine ⟨by omega, ?_⟩
    rw [cleanup_go_delay_total, hs1]

theorem verify_one_total (fuel : Nat) (t0 t t2 : ParsedTrack)
    (h : verify_one fuel t0 t = .ok t2) :
    delay_total t2.messages = delay_total t0.messages := by
  unfold verify_one at h
  split at h
  · cases h
  · rename_i d heq
    have hd := diff_loop_ok fuel t0.messages t.messages 0 d heq
    split at h
    · rename_i hneg
      split at h
      · cases h
      · rename_i m2 heq2
        cases h
        obtain ⟨hle, htot⟩ := shrink_track_total t.messages (-d).toNat m2 heq2
        show delay_total m2 = delay_total t0.messages
        omega
    · split at h
      · rename_i hnneg hpos
        cases h
        show delay_total (t.messages ++ [⟨2, d.toNat⟩]) = delay_total t0.messages
        rw [delay_total_append]
        have hone : delay_total [(⟨2, d.toNat⟩ : ParsedMessage)] = d.toNat := by
          simp [delay_total]
        rw [hone]
        omega
      · rename_i hnneg hnpos
        cases h
        omega

theorem verify_rest_total (fuel : Nat) (t0 : ParsedTrack) :
    ∀ (rest rest2 : List ParsedTrack), verify_rest fuel t0 rest = .ok rest2 →
      ∀ t ∈ rest2, delay_total t.messages = delay_total t0.messages := by
  intro rest
  induction rest with
  | nil =>
    intro rest2 h t ht
    simp only [verify_rest] at h
    cases h
    simp at ht
  | cons x xs ih =>
    intro rest2 h t ht
    simp only [verify_rest] at h
    split at h
    · cases h
    · rename_i x2 heq
      split at h
      · cases h
      · rename_i xs2 heq2
        cases h
        rcases List.mem_cons.mp ht with rfl | hmem
        · exact verify_one_total fuel t0 x t heq
        · exact ih xs2 heq2 t hmem

/-- C2. When verify_track_length succeeds on a part, every returned track has
exactly the same total of delay ticks as the first track: a longer track was
shrunk by exactly the integer difference and a shorter track received one
trailing delay equal to the difference. -/
theorem c2_verify_track_length_aligns (fuel : Nat) (ts ts2 : List ParsedTrack)
    (h : verify_track_length fuel ts = .ok ts2) (t0 : ParsedTrack)
    (h0 : ts2.head? = some t0) :
    ∀ t ∈ ts2, delay_total t.messages = delay_total t0.messages := by
  cases ts with
  | nil =>
    cases h
  | cons a rest =>
    simp only [verify_track_length] at h
    split at h
    · cases h
    · rename_i rest2 heq
      cases h
      have ha : t0 = a := by
        simp only [List.head?] at h0
        injection h0 with h0
        exact h0.symm
      subst ha
      intro t ht
      rcases List.mem_cons.mp ht with rfl | hmem
      · rfl
      · exact verify_rest_total fuel t0 rest rest2 heq t hmem

/-- C2 witness: a reference track of 3 ticks and a second track of 5 ticks;
verification shrinks the second track to exactly 3 ticks. -/
theorem c2_witness :
    delay_total (⟨15, [⟨0, 48⟩, ⟨2, 3⟩, ⟨1, 48⟩]⟩ : ParsedTrack).messages =
      delay_total (⟨15, [⟨2, 3⟩]⟩ : ParsedTrack).messages := by
  have h := c2_verify_track_length_aligns 20
      [⟨15, [⟨2, 3⟩]⟩, ⟨15, [⟨0, 48⟩, ⟨2, 5⟩, ⟨1, 48⟩]⟩]
      [⟨15, [⟨2, 3⟩]⟩, ⟨15, [⟨0, 48⟩, ⟨2, 3⟩, ⟨1, 48⟩]⟩]
      (by decide) ⟨15, [⟨2, 3⟩]⟩ (by decide)
  exact h _ (by decide)

/-!  Timeline assembly: process_track_messages walks a message stream with
a tick cursor and a map of open notes, closing matched pairs into notes. -/

/-- A finalized note of the output timeline. -/
structure MidiNote where
  midi : Nat
  ticks : ℤ
  time : ℚ
  duration : ℚ
  duration_ticks : ℤ
  velocity : ℚ
  note_off_velocity : ℚ
deriving DecidableEq

/-- The walking state of process_track_messages: the tick cursor, the map of
open notes (pitch paired with its start tick, insertion semantics of a JS
Map) and the notes output so far. -/
structure PState where
  cur : ℤ
  active : List (Nat × ℤ)
  notes : List MidiNote
deriving DecidableEq

/-- Map set: replace the entry for the key or append a new one. -/
def active_set : List (Nat × ℤ) → Nat → ℤ → List (Nat × ℤ)
  | [], k, v => [(k, v)]
  | (a, b) :: rest, k, v =>
      if a = k then (k, v) :: rest else (a, b) :: active_set rest k v

/-- Map delete: remove the entry for the key. -/
def active_del : List (Nat × ℤ) → Nat → List (Nat × ℤ)
  | [], _ => []
  | (a, b) :: rest, k => if a = k then rest else (a, b) :: active_del rest k

/-- The note record pushed by a matched note off: pitch, start tick, and
duration in ticks from the matching note on to the current cursor; times are
filled in later and the velocities are the fixed source constants. -/
def mk_note (v : Nat) (st cur : ℤ) : MidiNote :=
  { midi := v, ticks := st, time := 0, duration := 0, duration_ticks := cur - st,
    velocity := 100 / 127, note_off_velocity := 64 / 127 }

/-- One step of process_track_messages on one message. -/
def pstep (s : PState) (m : ParsedMessage) : PState :=
  if m.type = 0 then { s with active := active_set s.active m.value s.cur }
  else if m.type = 1 then
    match s.active.lookup m.value with
    | some st =>
        { s with notes := s.notes ++ [mk_note m.value st s.cur],
                 active := active_del s.active m.value }
    | none => s
  else if m.type = 2 then { s with cur := s.cur + (m.value : ℤ) }
  else s

/-- The message walk of process_track_messages. -/
def prun (msgs : List ParsedMessage) (s : PState) : PState :=
  msgs.foldl pstep s

/-- The cursor and open-note invariant of the walk. -/
def pinv (s : PState) : Prop :=
  (∀ p ∈ s.active, p.2 ≤ s.cur) ∧ (∀ n ∈ s.notes, 0 ≤ n.duration_ticks)

theorem active_set_mem (l : List (Nat × ℤ)) (k : Nat) (v : ℤ) :
    ∀ p ∈ active_set l k v, p ∈ l ∨ p = (k, v) := by
  induction l with
  | nil =>
    intro p hp
    simp [active_set] at hp
    simp [hp]
  | cons a rest ih =>
    intro p hp
    obtain ⟨a1, a2⟩ := a
    simp only [active_set] at hp
    split at hp
    · rcases List.mem_cons.mp hp with rfl | hmem
      · right
        rfl
      · left
        exact List.mem_cons_of_mem _ hmem
    · rcases List.mem_cons.mp hp with rfl | hmem
      · left
        exact List.mem_cons_self _ _
      · rcases ih p hmem with h | h
        · left
          exact List.mem_cons_of_mem _ h
        · right
          exact h

theorem active_del_mem (l : List (Nat × ℤ)) (k : Nat) :
    ∀ p ∈ active_del l k, p ∈ l := by
  induction l with
  | nil =>
    intro p hp
    simpa [active_del] using hp
  | cons a rest ih =>
    intro p hp
    obtain ⟨a1, a2⟩ := a
    simp only [active_del] at hp
    split at hp
    · exact List.mem_cons_of_mem _ hp
    · rcases List.mem_cons.mp hp with rfl | hmem
      · exact List.mem_cons_self _ _
      · exact List.mem_cons_of_mem _ (ih p hmem)

theorem lookup_mem_pairs (l : List (Nat × ℤ)) (k : Nat) (v : ℤ)
    (h : l.lookup k = some v) : (k, v) ∈ l := by
  induction l with
  | nil => cases h
  | cons a rest ih =>
    obtain ⟨a1, a2⟩ := a
    simp only [List.lookup] at h
    split at h
    · rename_i hbeq
      injection h with h
      subst h
      have : k = a1 := by simpa [eq_comm] using of_decide_eq_true hbeq
      subst this
      exact List.mem_cons_self _ _
    · exact List.mem_cons_of_mem _ (ih h)

theorem pstep_pinv (s : PState) (m : ParsedMessage) (h : pinv s) : pinv (pstep s m) := by
  obtain ⟨hact, hnotes⟩ := h
  unfold pstep
  by_cases h0 : m.type = 0
  · rw [if_pos h0]
    refine ⟨?_, hnotes⟩
    intro p hp
    rcases active_set_mem s.active m.value s.cur p hp with hmem | rfl
    · exact hact p hmem
    · exact le_rfl
  · rw [if_neg h0]
    by_cases h1 : m.type = 1
    · rw [if_pos h1]
      split
      · rename_i st hlk
        refine ⟨?_, ?_⟩
        · intro p hp
          exact hact p (active_del_mem s.active m.value p hp)
        · intro n hn
          rcases List.mem_append.mp hn with hmem | hnew
          · exact hnotes n hmem
          · have heq : n = mk_note m.value st s.cur := by
              simpa using hnew
            subst heq
            have hst := hact (m.value, st) (lookup_mem_pairs s.active m.value st hlk)
            simp only [] at hst
            simp only [mk_note]
            omega
      · exact ⟨hact, hnotes⟩
    · rw [if_neg h1]
      by_cases h2 : m.type = 2
      · rw [if_pos h2]
        refine ⟨?_, hnotes⟩
        intro p hp
        have hle := hact p hp
        have hv : (0 : ℤ) ≤ (m.value : ℤ) := Int.ofNat_nonneg m.value
        show p.2 ≤ s.cur + (m.value : ℤ)
        omega
      · rw [if_neg h2]
        exact ⟨hact, hnotes⟩

theorem prun_pinv (msgs : List ParsedMessage) : ∀ (s : PState), pinv s →
    pinv (prun msgs s) := by
  induction msgs with
  | nil =>
    intro s h
    exact h
  | cons m rest ih =>
    intro s h
    exact ih (pstep s m) (pstep_pinv s m h)

/-- C9. A note-off with no open note of that pitch leaves the state entirely
unchanged and emits nothing; no message other than a matched note-off emits a
note (in particular an unmatched note-on emits none); and every note produced
by a walk has a nonnegative duration in ticks, the note-off cursor minus the
matching note-on cursor. -/
theorem c9_process_track_messages :
    (∀ (s : PState) (v : Nat), s.active.lookup v = none → pstep s ⟨1, v⟩ = s)
  ∧ (∀ (s : PState) (m : ParsedMessage), m.type ≠ 1 → (pstep s m).notes = s.notes)
  ∧ (∀ (msgs : List ParsedMessage) (start : ℤ),
      ∀ n ∈ (prun msgs ⟨start, [], []⟩).notes, 0 ≤ n.duration_ticks) := by
  refine ⟨?_, ?_, ?_⟩
  · intro s v hnone
    have hred : pstep s ⟨1, v⟩ =
        (match s.active.lookup v with
          | some st =>
              { s with notes := s.notes ++ [mk_note v st s.cur],
                       active := active_del s.active v }
          | none => s) := rfl
    rw [hred, hnone]
  · intro s m hne
    unfold pstep
    by_cases h0 : m.type = 0
    · rw [if_pos h0]
    · rw [if_neg h0, if_neg hne]
      by_cases h2 : m.type = 2
      · rw [if_pos h2]
      · rw [if_neg h2]
  · intro msgs start n hn
    have hinit : pinv ⟨start, [], []⟩ := by
      constructor
      · intro p hp
        simp at hp
      · intro x hx
        simp at hx
    exact (prun_pinv msgs ⟨start, [], []⟩ hinit).2 n hn

/-- C9 witness: a note-off for pitch 5 with no open note leaves a concrete
state unchanged, and a note-on emits no note. -/
theorem c9_witness :
    pstep ⟨3, [(48, 1)], []⟩ ⟨1, 5⟩ = ⟨3, [(48, 1)], []⟩ ∧
    (pstep ⟨3, [(48, 1)], []⟩ ⟨0, 7⟩).notes = [] :=
  ⟨c9_process_track_messages.1 ⟨3, [(48, 1)], []⟩ 5 (by decide),
    c9_process_track_messages.2.1 ⟨3, [(48, 1)], []⟩ ⟨0, 7⟩ (by decide)⟩

/-!  Cross-part alignment: parts with fewer tracks than the maximum are
padded with clones of their last track whose note messages are ignored. -/

/-- A parsed part: effective bpm, base beats multiplier and its tracks. -/
structure ParsedPart where
  bpm : ℚ
  base_beats : Nat
  tracks : List ParsedTrack
deriving DecidableEq

/-- Stand-in for the out-of-range last-track access of the source on a part
with no tracks (the source would fail there; the pipeline never produces
such a part, since verify_track_length rejects empty track lists). -/
def default_track : ParsedTrack := ⟨0, []⟩

/-- Reclassification of one message in a cloned padding track. -/
def ignore_msg (m : ParsedMessage) : ParsedMessage :=
  if m.type < 2 then ⟨3, m.value⟩ else m

/-- The clone of a track used for padding: note on and note off reclassified
to ignore, delays kept. -/
def ignore_clone (t : ParsedTrack) : ParsedTrack :=
  ⟨t.base_beats, t.messages.map ignore_msg⟩

/-- The maximum track count across all parts. -/
def max_track_count (parts : List ParsedPart) : Nat :=
  parts.foldl (fun acc p => max acc p.tracks.length) 0

/-- The padding while loop: append a clone of the last track until the
count reaches the maximum.  Each iteration adds one track, so the caller
passes the difference as the iteration count. -/
def pad_tracks_go : Nat → List ParsedTrack → Nat → List ParsedTrack
  | 0, tracks, _ => tracks
  | f + 1, tracks, m =>
      if tracks.length < m then
        pad_tracks_go f (tracks ++ [ignore_clone (tracks.getLastD default_track)]) m
      else tracks

/-- Padding of one part's tracks up to the maximum. -/
def pad_tracks (tracks : List ParsedTrack) (m : Nat) : List ParsedTrack :=
  pad_tracks_go (m - tracks.length) tracks m

/-- align_tracks_across_parts from the source. -/
def align_tracks_across_parts (parts : List ParsedPart) : List ParsedPart :=
  let m := max_track_count parts
  parts.map (fun p => ⟨p.bpm, p.base_beats, pad_tracks p.tracks m⟩)

theorem ignore_msg_idem (m : ParsedMessage) : ignore_msg (ignore_msg m) = ignore_msg m := by
  unfold ignore_msg
  by_cases h : m.type < 2
  · rw [if_pos h]
    rfl
  · rw [if_neg h, if_neg h]

theorem ignore_clone_idem (t : ParsedTrack) :
    ignore_clone (ignore_clone t) = ignore_clone t := by
  simp only [ignore_clone, List.map_map]
  congr 1
  apply List.map_congr_left
  intro m _
  simp only [Function.comp_apply]
  exact ignore_msg_idem m

theorem pad_tracks_go_form : ∀ (f : Nat) (tracks : List ParsedTrack) (m : Nat),
    f = m - tracks.length →
    pad_tracks_go f tracks m =
      tracks ++ List.replicate (m - tracks.length)
        (ignore_clone (tracks.getLastD default_track)) := by
  intro f
  induction f with
  | zero =>
    intro tracks m hf
    rw [pad_tracks_go]
    rw [← hf]
    simp
  | succ f ih =>
    intro tracks m hf
    rw [pad_tracks_go]
    have hlt : tracks.length < m := by omega
    rw [if_pos hlt]
    have hrec := ih (tracks ++ [ignore_clone (tracks.getLastD default_track)]) m (by
      simp only [List.length_append, List.length_cons, List.length_nil]
      omega)
    rw [hrec]
    have hlast : (tracks ++ [ignore_clone (tracks.getLastD default_track)]).getLastD
        default_track = ignore_clone (tracks.getLastD default_track) := by
      simp [List.getLastD_concat]
    rw [hlast, ignore_clone_idem]
    have hcount : m - (tracks ++ [ignore_clone (tracks.getLastD default_track)]).length + 1 =
        m - tracks.length := by
      simp only [List.length_append, List.length_cons, List.length_nil]
      omega
    rw [List.append_assoc]
    congr 1
    rw [List.singleton_append, ← List.replicate_succ, hcount]

theorem max_track_count_le (parts : List ParsedPart) :
    ∀ p ∈ parts, p.tracks.length ≤ max_track_count parts := by
  suffices h : ∀ (acc : Nat), acc ≤ parts.foldl (fun acc p => max acc p.tracks.length) acc ∧
      ∀ p ∈ parts, p.tracks.length ≤ parts.foldl (fun acc p => max acc p.tracks.length) acc by
    exact (h 0).2
  induction parts with
  | nil =>
    intro acc
    exact ⟨le_rfl, by simp⟩
  | cons q rest ih =>
    intro acc
    obtain ⟨h1, h2⟩ := ih (max acc q.tracks.length)
    constructor
    · calc acc ≤ max acc q.tracks.length := le_max_left _ _
        _ ≤ _ := h1
    · intro p hp
      rcases List.mem_cons.mp hp with rfl | hmem
      · calc p.tracks.length ≤ max acc p.tracks.length := le_max_right _ _
          _ ≤ _ := h1
      · exact h2 p hmem

theorem ignore_clone_run (msgs : List ParsedMessage) : ∀ (s : PState),
    (prun (msgs.map ignore_msg) s).notes = s.notes ∧
    (prun (msgs.map ignore_msg) s).cur = s.cur + (delay_total msgs : ℤ) ∧
    (prun (msgs.map ignore_msg) s).active = s.active := by
  induction msgs with
  | nil =>
    intro s
    simp [prun, delay_total]
  | cons m rest ih =>
    intro s
    have hstep : prun ((m :: rest).map ignore_msg) s =
        prun (rest.map ignore_msg) (pstep s (ignore_msg m)) := rfl
    by_cases h : m.type < 2
    · have hid : pstep s (ignore_msg m) = s := by
        unfold pstep ignore_msg
        rw [if_pos h]
        norm_num
      have hdt : delay_total (m :: rest) = delay_total rest := by
        have : (if m.type = 2 then m.value else 0) = 0 := by
          rw [if_neg (by omega)]
        simp [delay_total, this]
      rw [hstep, hid, hdt]
      exact ih s
    · by_cases h2 : m.type = 2
      · have hid : pstep s (ignore_msg m) =
            { s with cur := s.cur + (m.value : ℤ) } := by
          unfold pstep ignore_msg
          rw [if_neg h]
          rw [if_neg (by omega), if_neg (by omega), if_pos h2]
        have hdt : delay_total (m :: rest) = m.value + delay_total rest := by
          simp [delay_total, h2]
        obtain ⟨ih1, ih2, ih3⟩ := ih { s with cur := s.cur + (m.value : ℤ) }
        rw [hstep, hid]
        refine ⟨ih1, ?_, ih3⟩
        rw [ih2, hdt]
        push_cast
        ring
      · have hid : pstep s (ignore_msg m) = s := by
          unfold pstep ignore_msg
          rw [if_neg h]
          rw [if_neg (by omega), if_neg (by omega), if_neg h2]
        have hdt : delay_total (m :: rest) = delay_total rest := by
          have : (if m.type = 2 then m.value else 0) = 0 := by
            rw [if_neg h2]
          simp [delay_total, this]
        rw [hstep, hid, hdt]
        exact ih s

/-- C8. After cross-part alignment every part has exactly the maximum track
count; the added tracks are clones of the part's last track with all note
messages reclassified to ignore; and running a clone through the timeline
walk emits no note while advancing the cursor by the clone's full delay
total. -/
theorem c8_align_tracks (parts : List ParsedPart) :
    (∀ p ∈ align_tracks_across_parts parts, p.tracks.length = max_track_count parts)
  ∧ align_tracks_across_parts parts = parts.map (fun p =>
      ⟨p.bpm, p.base_beats, p.tracks ++ List.replicate
        (max_track_count parts - p.tracks.length)
        (ignore_clone (p.tracks.getLastD default_track))⟩)
  ∧ (∀ (t : ParsedTrack) (start : ℤ),
      (prun (ignore_clone t).messages ⟨start, [], []⟩).notes = [] ∧
      (prun (ignore_clone t).messages ⟨start, [], []⟩).cur =
        start + (delay_total t.messages : ℤ)) := by
  have hform : align_tracks_across_parts parts = parts.map (fun p =>
      ⟨p.bpm, p.base_beats, p.tracks ++ List.replicate
        (max_track_count parts - p.tracks.length)
        (ignore_clone (p.tracks.getLastD default_track))⟩) := by
    unfold align_tracks_across_parts pad_tracks
    apply List.map_congr_left
    intro p hp
    rw [pad_tracks_go_form (max_track_count parts - p.tracks.length) p.tracks
      (max_track_count parts) rfl]
  refine ⟨?_, hform, ?_⟩
  · intro p hp
    rw [hform] at hp
    obtain ⟨q, hq, rfl⟩ := List.mem_map.mp hp
    have hle := max_track_count_le parts q hq
    simp only [List.length_append, List.length_replicate]
    omega
  · intro t start
    obtain ⟨h1, h2, h3⟩ := ignore_clone_run t.messages ⟨start, [], []⟩
    exact ⟨h1, h2⟩

/-- C8 witness: a two-part piece where the second part is padded from one
track to the maximum of two. -/
theorem c8_witness :
    (⟨60, 15, [⟨15, [⟨2, 3⟩]⟩, ⟨15, [⟨2, 3⟩]⟩]⟩ : ParsedPart).tracks.length =
      max_track_count
        [⟨60, 15, [⟨15, [⟨2, 3⟩]⟩, ⟨15, [⟨2, 3⟩]⟩]⟩, ⟨60, 15, [⟨15, [⟨2, 3⟩]⟩]⟩] := by
  apply (c8_align_tracks
    [⟨60, 15, [⟨15, [⟨2, 3⟩]⟩, ⟨15, [⟨2, 3⟩]⟩]⟩, ⟨60, 15, [⟨15, [⟨2, 3⟩]⟩]⟩]).1
  rw [(c8_align_tracks
    [⟨60, 15, [⟨15, [⟨2, 3⟩]⟩, ⟨15, [⟨2, 3⟩]⟩]⟩, ⟨60, 15, [⟨15, [⟨2, 3⟩]⟩]⟩]).2.1]
  exact List.Mem.head _

/-!  Tempo map and the tick to seconds conversion. -/

/-- A tempo breakpoint: tick position, bpm, and the derived time in seconds. -/
structure MidiTempo where
  ticks : ℚ
  bpm : ℚ
  time : ℚ
deriving DecidableEq

/-- The loop of ticks_to_seconds, carrying the current position and bpm:
stop at the first breakpoint at or past the target and charge the remainder
at the current bpm, otherwise charge the full span to the breakpoint at the
current bpm and continue from it. -/
def ticks_to_seconds_go (ticks ppq : ℚ) : List MidiTempo → ℚ → ℚ → ℚ
  | [], cur_t, cur_b => (ticks - cur_t) / ppq * (60 / cur_b)
  | tp :: rest, cur_t, cur_b =>
      if ticks ≤ tp.ticks then (ticks - cur_t) / ppq * (60 / cur_b)
      else (tp.ticks - cur_t) / ppq * (60 / cur_b) +
        ticks_to_seconds_go ticks ppq rest tp.ticks tp.bpm

/-- ticks_to_seconds from the source: the current bpm starts at the first
breakpoint's bpm, or 120 when there is none, and the position at tick 0. -/
def ticks_to_seconds (ticks : ℚ) (tempos : List MidiTempo) (ppq : ℚ) : ℚ :=
  ticks_to_seconds_go ticks ppq tempos 0
    (match tempos with
      | [] => 120
      | tp :: _ => tp.bpm)

/-- Modelled from the spec wording of C4 (the integral formulation): sum
segment_ticks over ppq times 60 over bpm across all tempo segments that end
strictly before the target tick, plus the remainder within the final segment
at that segment's bpm; with no breakpoints the bpm is 120 throughout. -/
def segment_integral (ticks ppq : ℚ) : List MidiTempo → ℚ
  | [] => ticks / ppq * (60 / 120)
  | [tp] => (ticks - tp.ticks) / ppq * (60 / tp.bpm)
  | tp1 :: tp2 :: rest =>
      if tp2.ticks < ticks then
        (tp2.ticks - tp1.ticks) / ppq * (60 / tp1.bpm) +
          segment_integral ticks ppq (tp2 :: rest)
      else (ticks - tp1.ticks) / ppq * (60 / tp1.bpm)

theorem ticks_to_seconds_go_eq (ticks ppq : ℚ) :
    ∀ (rest : List MidiTempo) (tp1 : MidiTempo),
      ticks_to_seconds_go ticks ppq rest tp1.ticks tp1.bpm =
        segment_integral ticks ppq (tp1 :: rest) := by
  intro rest
  induction rest with
  | nil =>
    intro tp1
    rfl
  | cons tp2 r2 ih =>
    intro tp1
    rw [ticks_to_seconds_go]
    by_cases h : ticks ≤ tp2.ticks
    · rw [if_pos h]
      rw [segment_integral]
      rw [if_neg (by linarith)]
    · rw [if_neg h]
      rw [segment_integral]
      rw [if_pos (by linarith)]
      rw [ih tp2]

/-- C4.  Tick 960 under the single breakpoint at tick 0 with bpm 120 and ppq
960 maps to exactly one half second; and in general, for a tempo list whose
first breakpoint sits at tick 0 with all breakpoint ticks nonnegative and a
nonnegative target, the conversion equals the per-segment integral stated by
the spec. -/
theorem c4_ticks_to_seconds (t120 : MidiTempo) (h120 : t120 = ⟨0, 120, 0⟩) :
    ticks_to_seconds 960 [t120] 960 = 1 / 2 ∧
    (∀ (ticks ppq : ℚ) (tempos : List MidiTempo),
      0 ≤ ticks → (∀ tp ∈ tempos, 0 ≤ tp.ticks) →
      (∀ tp0, tempos.head? = some tp0 → tp0.ticks = 0) →
      ticks_to_seconds ticks tempos ppq = segment_integral ticks ppq tempos) := by
  constructor
  · subst h120
    show ticks_to_seconds_go 960 960 [⟨0, 120, 0⟩] 0 120 = 1 / 2
    rw [ticks_to_seconds_go]
    rw [if_neg (by norm_num)]
    rw [ticks_to_seconds_go]
    norm_num
  · intro ticks ppq tempos hts hnn hhead
    cases tempos with
    | nil =>
      show ticks_to_seconds_go ticks ppq [] 0 120 = segment_integral ticks ppq []
      rw [ticks_to_seconds_go, segment_integral]
      ring
    | cons tp1 rest =>
      have h0 : tp1.ticks = 0 := hhead tp1 rfl
      show ticks_to_seconds_go ticks ppq (tp1 :: rest) 0 tp1.bpm =
        segment_integral ticks ppq (tp1 :: rest)
      rw [ticks_to_seconds_go]
      by_cases hle : ticks ≤ tp1.ticks
      · rw [if_pos hle]
        have hzero : ticks = 0 := by
          rw [h0] at hle
          linarith
        cases rest with
        | nil =>
          rw [segment_integral]
          rw [h0]
        | cons tp2 r2 =>
          rw [segment_integral]
          have h2 : 0 ≤ tp2.ticks := hnn tp2 (by simp)
          rw [if_neg (by rw [hzero]; linarith)]
          rw [h0]
      · rw [if_neg hle]
        rw [ticks_to_seconds_go_eq ticks ppq rest tp1]
        rw [h0]
        norm_num

/-- C4 witness: the general segment equality applied to a concrete two
breakpoint tempo map. -/
theorem c4_witness :
    ticks_to_seconds 1920 [⟨0, 120, 0⟩, ⟨960, 60, 0⟩] 960 =
      segment_integral 1920 960 [⟨0, 120, 0⟩, ⟨960, 60, 0⟩] := by
  refine (c4_ticks_to_seconds ⟨0, 120, 0⟩ rfl).2 1920 960
    [⟨0, 120, 0⟩, ⟨960, 60, 0⟩] (by norm_num) ?_ ?_
  · intro tp htp
    rcases List.mem_cons.mp htp with rfl | htp2
    · norm_num
    · rcases List.mem_cons.mp htp2 with rfl | htp3
      · norm_num
      · simp at htp3
  · intro tp0 h
    injection h with h
    rw [← h]

/-!  The rich-notation track scanner and the full level pipeline. -/

/-- NOTE_TO_MIDI from the source: note name tokens to pitch numbers; the
value 1 marks mute and empty. -/
def NOTE_TO_MIDI : List (String × Nat) :=
  [("c5", 108), ("b4", 107), ("#a4", 106), ("a4", 105), ("#g4", 104), ("g4", 103),
   ("#f4", 102), ("f4", 101), ("e4", 100), ("#d4", 99), ("d4", 98), ("#c4", 97),
   ("c4", 96), ("b3", 95), ("#a3", 94), ("a3", 93), ("#g3", 92), ("g3", 91),
   ("#f3", 90), ("f3", 89), ("e3", 88), ("#d3", 87), ("d3", 86), ("#c3", 85),
   ("c3", 84), ("b2", 83), ("#a2", 82), ("a2", 81), ("#g2", 80), ("g2", 79),
   ("#f2", 78), ("f2", 77), ("e2", 76), ("#d2", 75), ("d2", 74), ("#c2", 73),
   ("c2", 72), ("b1", 71), ("#a1", 70), ("a1", 69), ("#g1", 68), ("g1", 67),
   ("#f1", 66), ("f1", 65), ("e1", 64), ("#d1", 63), ("d1", 62), ("#c1", 61),
   ("c1", 60), ("b", 59), ("#a", 58), ("a", 57), ("#g", 56), ("g", 55),
   ("#f", 54), ("f", 53), ("e", 52), ("#d", 51), ("d", 50), ("#c", 49),
   ("c", 48), ("B-1", 47), ("#A-1", 46), ("A-1", 45), ("#G-1", 44), ("G-1", 43),
   ("#F-1", 42), ("F-1", 41), ("E-1", 40), ("#D-1", 39), ("D-1", 38), ("#C-1", 37),
   ("C-1", 36), ("B-2", 35), ("#A-2", 34), ("A-2", 33), ("#G-2", 32), ("G-2", 31),
   ("#F-2", 30), ("F-2", 29), ("E-2", 28), ("#D-2", 27), ("D-2", 26), ("#C-2", 25),
   ("C-2", 24), ("B-3", 23), ("#A-3", 22), ("A-3", 21), ("mute", 1), ("empty", 1)]

/-- get_note_number from the source: table value, or 0 when unknown. -/
def get_note_number (t : Str) : Nat :=
  (NOTE_TO_MIDI.lookup (String.mk t)).getD 0

/-- BASEBEATS_MAP from the source, keyed by the rational value each decimal
string key denotes (the source keys the map by the decimal string produced
by converting the baseBeats number to a string; for each listed key that
conversion yields exactly the listed decimal). -/
def BASEBEATS_MAP_Q : List (ℚ × Nat) :=
  [(15, 1), (7.5, 2), (5, 3), (3.75, 4), (3, 5), (2.5, 6), (1.875, 8), (1.5, 10),
   (1.25, 12), (1, 15), (0.9375, 16), (0.75, 20), (0.625, 24), (0.5, 30),
   (0.46875, 32), (0.375, 40), (0.3125, 48), (0.25, 60), (0.234375, 64),
   (0.1875, 80), (0.15625, 96), (0.125, 120), (0.1171875, 128), (0.09375, 160),
   (0.078125, 192), (0.0625, 240), (0.05859375, 256), (0.046875, 320),
   (0.0390625, 384), (0.03125, 480), (0.029296875, 512), (0.0234375, 640),
   (0.01953125, 768), (0.015625, 960)]

/-- BASEBEATS_MAP for baseBeats given directly as a string. -/
def BASEBEATS_MAP_S : List (String × Nat) :=
  [("15", 1), ("7.5", 2), ("5", 3), ("3.75", 4), ("3", 5), ("2.5", 6), ("1.875", 8),
   ("1.5", 10), ("1.25", 12), ("1", 15), ("0.9375", 16), ("0.75", 20), ("0.625", 24),
   ("0.5", 30), ("0.46875", 32), ("0.375", 40), ("0.3125", 48), ("0.25", 60),
   ("0.234375", 64), ("0.1875", 80), ("0.15625", 96), ("0.125", 120),
   ("0.1171875", 128), ("0.09375", 160), ("0.078125", 192), ("0.0625", 240),
   ("0.05859375", 256), ("0.046875", 320), ("0.0390625", 384), ("0.03125", 480),
   ("0.029296875", 512), ("0.0234375", 640), ("0.01953125", 768),
   ("0.015625", 960)]

/-- A JSON scalar as far as the loader's checks distinguish them. -/
inductive JVal
  | num (q : ℚ)
  | str (s : String)
deriving DecidableEq

/-- Whether the scalar is a number, as typeof does. -/
def JVal.isNum : JVal → Bool
  | .num _ => true
  | .str _ => false

/-- The numeric value of a scalar; only used after validation, so the string
case is never reached on the pipeline's own inputs. -/
def JVal.toQ : JVal → ℚ
  | .num q => q
  | .str _ => 0

/-- get_base_beats_multiplier from the source, dispatching on the runtime
type of the raw baseBeats value. -/
def get_base_beats_multiplier : JVal → Except Err Nat
  | .num q =>
      match BASEBEATS_MAP_Q.lookup q with
      | some v => .ok v
      | none => .error .unknownBaseBeats
  | .str st =>
      match BASEBEATS_MAP_S.lookup st with
      | some v => .ok v
      | none => .error .unknownBaseBeats

/-- The structural token delimiters of the rich-notation scanner. -/
def token_delims : List Char :=
  ['.', '(', ')', '~', '[', ']', ',', ';', '<', '>', '@', '%', '!', '$', '^', '&']

/-- The character loop of parse_track.  One outer iteration consumes at
least one character, so the caller passes the score length as the iteration
count; pnfuel is the ornament-loop fuel handed to process_notes. -/
def parse_track_go (bpm : ℚ) (bb : Nat) (pnfuel : Nat) :
    Nat → Str → Nat → List Nat → List ParsedMessage → Except Err (List ParsedMessage)
  | _, [], mode, _, msgs =>
      if mode = 0 ∨ mode = 5 then .ok msgs else .error .incompleteScore
  | 0, _ :: _, _, _, _ => .error .fuelOut
  | f + 1, c :: cs, mode, notes, msgs =>
      if c = '.' then
        if mode = 2 then parse_track_go bpm bb pnfuel f cs 1 notes msgs
        else .error .unexpectedChar
      else if c = '~' ∨ c = '$' then
        if mode = 2 then parse_track_go bpm bb pnfuel f cs 1 (notes ++ [2]) msgs
        else .error .unexpectedChar
      else if c = '@' then
        if mode = 2 then parse_track_go bpm bb pnfuel f cs 1 (notes ++ [3]) msgs
        else .error .unexpectedChar
      else if c = '%' then
        if mode = 2 then parse_track_go bpm bb pnfuel f cs 1 (notes ++ [4]) msgs
        else .error .unexpectedChar
      else if c = '!' then
        if mode = 2 then parse_track_go bpm bb pnfuel f cs 1 (notes ++ [5]) msgs
        else .error .unexpectedChar
      else if c = '^' ∨ c = '&' then
        if mode = 2 then parse_track_go bpm bb pnfuel f cs 1 (notes ++ [6]) msgs
        else .error .unexpectedChar
      else if c = '(' then
        if mode = 0 then parse_track_go bpm bb pnfuel f cs 1 notes msgs
        else .error .unexpectedChar
      else if c = ')' then
        if mode = 2 then parse_track_go bpm bb pnfuel f cs 3 notes msgs
        else .error .unexpectedChar
      else if c = '[' then
        if mode = 3 then parse_track_go bpm bb pnfuel f cs 4 notes msgs
        else .error .unexpectedChar
      else if c = ']' then
        if mode = 6 then parse_track_go bpm bb pnfuel f cs 5 notes msgs
        else .error .unexpectedChar
      else if c = ',' ∨ c = ';' then
        if mode = 5 then parse_track_go bpm bb pnfuel f cs 0 notes msgs
        else if mode = 0 then parse_track_go bpm bb pnfuel f cs 0 notes msgs
        else .error .unexpectedChar
      else if c = ' ' then parse_track_go bpm bb pnfuel f cs mode notes msgs
      else if (c = '<' ∨ c.isDigit) ∧ mode = 0 then
        parse_track_go bpm bb pnfuel f cs mode notes msgs
      else if (c = '>' ∨ c = '{' ∨ c = '}' ∨ c.isDigit) ∧ mode = 5 then
        parse_track_go bpm bb pnfuel f cs mode notes msgs
      else
        let tok := c :: cs.takeWhile (fun x => !token_delims.contains x)
        let rest := cs.dropWhile (fun x => !token_delims.contains x)
        match get_length tok bb with
        | .error e => .error e
        | .ok tlen =>
            match get_rest tok bb with
            | .error e => .error e
            | .ok trest =>
                let note := get_note_number tok
                if note ≠ 0 then
                  let notes2 := if note ≠ 1 then notes ++ [note] else notes
                  if mode = 0 then parse_track_go bpm bb pnfuel f rest 3 notes2 msgs
                  else if mode = 1 then parse_track_go bpm bb pnfuel f rest 2 notes2 msgs
                  else .error .unexpectedToken
                else if tlen ≠ 0 then
                  if mode ≠ 4 then .error .unexpectedToken
                  else
                    match process_notes pnfuel notes tlen bpm with
                    | .error e => .error e
                    | .ok block => parse_track_go bpm bb pnfuel f rest 6 [] (msgs ++ block)
                else if trest ≠ 0 then
                  if mode = 0 then
                    parse_track_go bpm bb pnfuel f rest 5 notes (msgs ++ [⟨2, trest⟩])
                  else if mode = 1 then parse_track_go bpm bb pnfuel f rest 2 notes msgs
                  else .error .unexpectedToken
                else .error .cantParse

/-- parse_track from the source. -/
def parse_track (score : Str) (bpm : ℚ) (base_beats : Nat) (pnfuel : Nat) :
    Except Err ParsedTrack :=
  match parse_track_go bpm base_beats pnfuel score.length score 0 [] [] with
  | .error e => .error e
  | .ok msgs => .ok ⟨base_beats, msgs⟩

/-!  The row-layout pipeline. -/

/-- The balanced-bracket capture of split_score: consume characters while
tracking angle-bracket depth, returning the captured group (first character
included) and the remaining characters. -/
def take_group : List Char → ℤ → List Char × List Char
  | [], _ => ([], [])
  | c :: rest, depth =>
      let depth2 := if c = '<' then depth + 1 else if c = '>' then depth - 1 else depth
      if depth2 = 0 then ([c], rest)
      else
        let p := take_group rest depth2
        (c :: p.1, p.2)

/-- The character loop of split_score, carrying the pending component text.
One iteration consumes at least one character, so the caller passes the
score length as the iteration count. -/
def split_go : Nat → Str → Str → List Str → List Str
  | _, [], cur, acc => acc ++ (if (trimStr cur).isEmpty then [] else [trimStr cur])
  | 0, _ :: _, cur, acc => acc ++ (if (trimStr cur).isEmpty then [] else [trimStr cur])
  | f + 1, '<' :: rest, cur, acc =>
      if cur ≠ [] ∧ (cur.getLastD ' ').isDigit then
        let digit := cur.getLastD ' '
        let cur2 := cur.dropLast
        let acc2 := acc ++ (if (trimStr cur2).isEmpty then [] else [trimStr cur2])
        let p := take_group ('<' :: rest) 0
        let rest2 := match p.2 with
          | ',' :: r => r
          | r => r
        split_go f rest2 [] (acc2 ++ [digit :: p.1])
      else split_go f rest (cur ++ ['<']) acc
  | f + 1, c :: rest, cur, acc =>
      if c = ',' ∨ c = ';' then
        split_go f rest [] (acc ++ (if (trimStr cur).isEmpty then [] else [trimStr cur]))
      else split_go f rest (cur ++ [c]) acc

/-- split_score from the source. -/
def split_score (score : Str) : List Str :=
  split_go score.length score [] []

/-- parse_score from the source. -/
def parse_score (score : Str) : List ParsedComponent :=
  (split_score score).map parse_component

/-- A blending time window of one component. -/
structure TimelineEntry where
  start : Nat
  stop : Nat
  index : Nat
  is_rest : Bool
deriving DecidableEq

/-- build_timeline from the source, with a running start time and index. -/
def build_timeline_go : List ParsedComponent → Nat → Nat → List TimelineEntry
  | [], _, _ => []
  | comp :: rest, t, i =>
      ⟨t, t + comp.duration, i,
        match comp.original_type with
        | RowType.EMPTY => true
        | _ => false⟩ :: build_timeline_go rest (t + comp.duration) (i + 1)

/-- build_timeline from the source. -/
def build_timeline (components : List ParsedComponent) : List TimelineEntry :=
  build_timeline_go components 0 0

/-- ranges_overlap from the source: half open interval overlap. -/
def ranges_overlap (start1 end1 start2 end2 : Nat) : Bool :=
  decide (start1 < end2 ∧ start2 < end1)

/-- blend_tracks from the source: indices of primary rest windows overlapped
by an active window of some secondary score. -/
def blend_tracks (primary_timeline : List TimelineEntry)
    (secondary_scores : List Str) : List Nat :=
  secondary_scores.foldl (fun acc sscore =>
    let stimeline := build_timeline (parse_score sscore)
    stimeline.foldl (fun acc2 se =>
      if se.is_rest then acc2
      else acc2 ++ ((primary_timeline.filter (fun pe =>
          ranges_overlap pe.start pe.stop se.start se.stop && pe.is_rest)).map
            (fun pe => pe.index))) acc) []

/-- One generated tile row: kind and height multiplier. -/
structure RowTypeResult where
  type : RowType
  height_multiplier : ℚ
deriving DecidableEq

/-- generate_results from the source. -/
def generate_results (components : List ParsedComponent) (blended : List Nat)
    (unit_divisor : ℚ) : List RowTypeResult :=
  components.enum.map (fun pair =>
    let comp := pair.2
    if comp.original_type = RowType.EMPTY ∧ blended.contains pair.1 then
      ⟨RowType.SINGLE,
        if (comp.duration : ℚ) ≤ unit_divisor then 1
        else (comp.duration : ℚ) / unit_divisor⟩
    else if comp.original_type = RowType.DOUBLE then ⟨RowType.DOUBLE, 1⟩
    else if comp.original_type = RowType.EMPTY then
      ⟨RowType.EMPTY, (comp.duration : ℚ) / unit_divisor⟩
    else
      ⟨RowType.SINGLE,
        if (comp.duration : ℚ) ≤ unit_divisor then 1
        else (comp.duration : ℚ) / unit_divisor⟩)

/-- process_music from the source: parse the primary score, blend it against
the secondary scores, and generate the rows. -/
def process_music (base_beats : ℚ) (scores : List Str) : List RowTypeResult :=
  let unit_divisor := 32 * base_beats
  match scores with
  | [] => []
  | primary :: secondary =>
      let primary_components := parse_score primary
      let primary_timeline := build_timeline primary_components
      let blended := blend_tracks primary_timeline secondary
      generate_results primary_components blended unit_divisor

/-!  The input file model and the combined loader. -/

/-- One music entry of the raw input, as far as validation distinguishes the
runtime types: id and baseBeats are raw scalars, bpm is optional, and the
scores array is a list of score strings. -/
structure MusicEntry where
  id : JVal
  bpm : Option ℚ
  baseBeats : JVal
  scores : List Str
deriving DecidableEq

/-- The raw input file: a baseBpm scalar plus the musics array. -/
structure MusicInputFile where
  baseBpm : JVal
  musics : List MusicEntry
deriving DecidableEq

/-- The per-entry checks of validate_music_input. -/
def validate_entries : List MusicEntry → Except Err Unit
  | [] => .ok ()
  | m :: rest =>
      if ¬ m.id.isNum then .error .structural
      else if ¬ m.baseBeats.isNum then .error .structural
      else validate_entries rest

/-- validate_music_input from the source.  The object shape, the musics
array and the scores arrays are enforced by the model types; the runtime
number checks on baseBpm, id and baseBeats are performed here. -/
def validate_music_input (data : MusicInputFile) : Except Err Unit :=
  if ¬ data.baseBpm.isNum then .error .structural
  else validate_entries data.musics

/-- calculate_tps from the source: bpm over baseBeats over 60. -/
def calculate_tps (m : MusicEntry) (base_bpm : ℚ) : ℚ :=
  (m.bpm.getD base_bpm) / m.baseBeats.toQ / 60

/-- Metadata of one music section in the combined row array. -/
structure MusicMetadata where
  id : ℚ
  tps : ℚ
  start_row_index : Nat
  end_row_index : Nat
  row_count : Nat
deriving DecidableEq

/-- Stable insertion of an element into a list sorted ascending by key;
equal keys keep the existing elements first, matching a stable sort. -/
def insert_by_key {α : Type} (key : α → ℚ) (x : α) : List α → List α
  | [] => [x]
  | y :: ys => if key x < key y then x :: y :: ys else y :: insert_by_key key x ys

/-- Stable ascending sort by key, modelling the stable JS array sort with
the numeric comparator of the source. -/
def sort_by_key {α : Type} (key : α → ℚ) : List α → List α
  | [] => []
  | x :: xs => insert_by_key key x (sort_by_key key xs)

/-- The combining loop of parse_and_combine_musics over the sorted musics:
rows of each music are appended and the metadata records the index range
and tps. -/
def combine_go : List MusicEntry → ℚ → Nat → List RowTypeResult × List MusicMetadata
  | [], _, _ => ([], [])
  | m :: rest, base_bpm, start_idx =>
      let rows := process_music m.baseBeats.toQ m.scores
      let meta : MusicMetadata :=
        ⟨m.id.toQ, calculate_tps m base_bpm, start_idx, start_idx + rows.length,
          rows.length⟩
      let p := combine_go rest base_bpm (start_idx + rows.length)
      (rows ++ p.1, meta :: p.2)

/-!  The MIDI conversion pipeline. -/

/-- The per-track loop of parse_song. -/
def parse_tracks (bpm : ℚ) (mult : Nat) (pnfuel : Nat) :
    List Str → Except Err (List ParsedTrack)
  | [] => .ok []
  | sc :: rest =>
      match parse_track sc bpm mult pnfuel with
      | .error e => .error e
      | .ok t =>
          match parse_tracks bpm mult pnfuel rest with
          | .error e => .error e
          | .ok ts => .ok (t :: ts)

/-- parse_song from the source: per music, resolve the baseBeats multiplier,
the effective bpm (falling back to 120 scaled by the multiplier when the
computed bpm is not positive), parse each score into a track, and align the
track lengths within the part.  vfuel bounds the tick walk of
calculate_track_length_diff and pnfuel the ornament loop. -/
def parse_song_go (base_bpm : Option ℚ) (vfuel pnfuel : Nat) :
    List MusicEntry → Except Err (List ParsedPart)
  | [] => .ok []
  | music :: rest =>
      match get_base_beats_multiplier music.baseBeats with
      | .error e => .error e
      | .ok mult =>
          let music_bpm := music.bpm.getD (base_bpm.getD 120)
          let calculated := music_bpm * (mult : ℚ)
          let part_bpm := if calculated ≤ 0 then 120 * (mult : ℚ) else calculated
          match parse_tracks part_bpm mult pnfuel music.scores with
          | .error e => .error e
          | .ok tracks =>
              match verify_track_length vfuel tracks with
              | .error e => .error e
              | .ok tracks2 =>
                  match parse_song_go base_bpm vfuel pnfuel rest with
                  | .error e => .error e
                  | .ok parts => .ok (⟨part_bpm, mult, tracks2⟩ :: parts)

/-- calculate_part_duration from the source: the maximum of the per-track
delay totals. -/
def calculate_part_duration (tracks : List ParsedTrack) : Nat :=
  tracks.foldl (fun acc t => max acc (delay_total t.messages)) 0

/-- A track of the output timeline. -/
structure MidiTrack where
  channel : Nat
  notes : List MidiNote
deriving DecidableEq

/-- Header of the output timeline. -/
structure MidiHeader where
  ppq : Nat
  tempos : List MidiTempo
deriving DecidableEq

/-- The output timeline. -/
structure MidiJson where
  header : MidiHeader
  tracks : List MidiTrack
deriving DecidableEq

/-- Writing one output track back at its index; in the conversion loop the
index is always either in range or exactly the current length, because the
aligned parts all carry the same track count. -/
def set_or_append (tracks : List MidiTrack) (idx : Nat) (t : MidiTrack) :
    List MidiTrack :=
  if idx < tracks.length then tracks.set idx t else tracks ++ [t]

/-- The per-track loop of one part in convert_to_midi_json: fetch or create
the output track for the index and walk the part track's messages from the
part's start ticks. -/
def process_part_go : List ParsedTrack → Nat → List MidiTrack → Nat → List MidiTrack
  | [], _, tracks, _ => tracks
  | pt :: rest, idx, tracks, start =>
      let ot := tracks.getD idx ⟨idx % 16, []⟩
      let st := prun pt.messages ⟨(start : ℤ), [], ot.notes⟩
      process_part_go rest (idx + 1) (set_or_append tracks idx ⟨ot.channel, st.notes⟩) start

/-- The per-part loop of convert_to_midi_json: push one tempo breakpoint at
the running tick cursor with bpm scaled down by 30, process the part's
tracks, and advance the cursor by the part duration. -/
def convert_parts_go : List ParsedPart → Nat → List MidiTempo → List MidiTrack →
    List MidiTempo × List MidiTrack × Nat
  | [], cur, tempos, tracks => (tempos, tracks, cur)
  | part :: rest, cur, tempos, tracks =>
      let tempos2 := tempos ++ [⟨(cur : ℚ), part.bpm / 30, 0⟩]
      let tracks2 := process_part_go part.tracks 0 tracks cur
      convert_parts_go rest (cur + calculate_part_duration part.tracks) tempos2 tracks2

/-- calculate_times from the source: fill in each note's time and duration
in seconds from the sorted tempo list. -/
def calculate_times (tracks : List MidiTrack) (tempos : List MidiTempo) (ppq : ℚ) :
    List MidiTrack :=
  tracks.map (fun tr =>
    ⟨tr.channel, tr.notes.map (fun n =>
      let t := ticks_to_seconds (n.ticks : ℚ) tempos ppq
      { n with time := t,
               duration := ticks_to_seconds ((n.ticks : ℚ) + (n.duration_ticks : ℚ))
                 tempos ppq - t })⟩)

/-- calculate_tempo_times from the source. -/
def calculate_tempo_times (tempos : List MidiTempo) (ppq : ℚ) : List MidiTempo :=
  tempos.map (fun tp => ⟨tp.ticks, tp.bpm, ticks_to_seconds tp.ticks tempos ppq⟩)

/-- convert_to_midi_json from the source: align the parts, run the part
loop from tick 0, sort the tempo list by ticks, and fill in all times at
the fixed ppq of 960. -/
def convert_to_midi_json (parts : List ParsedPart) : MidiJson :=
  let aligned := align_tracks_across_parts parts
  let p := convert_parts_go aligned 0 [] []
  let sorted := sort_by_key (fun tp => tp.ticks) p.1
  ⟨⟨960, calculate_tempo_times sorted 960⟩, calculate_times p.2.1 sorted 960⟩

/-- convert_raw_to_midi_json from the source. -/
def convert_raw_to_midi_json (musics : List MusicEntry) (base_bpm : Option ℚ)
    (vfuel pnfuel : Nat) : Except Err MidiJson :=
  match parse_song_go base_bpm vfuel pnfuel musics with
  | .error e => .error e
  | .ok parts => .ok (convert_to_midi_json parts)

/-- The combined level data returned by the loader. -/
structure LevelData where
  rows : List RowTypeResult
  musics : List MusicMetadata
  base_bpm : ℚ
  midi_json : Option MidiJson
deriving DecidableEq

/-- parse_and_combine_musics from the source: validate, sort the musics by
id ascending, combine the rows and metadata, then attempt the MIDI
conversion on the original music order, degrading to a null timeline when
the conversion throws. -/
def parse_and_combine_musics (input : MusicInputFile) (vfuel pnfuel : Nat) :
    Except Err LevelData :=
  match validate_music_input input with
  | .error e => .error e
  | .ok _ =>
      let base_bpm := input.baseBpm.toQ
      let sorted := sort_by_key (fun m => m.id.toQ) input.musics
      let p := combine_go sorted base_bpm 0
      let midi : Option MidiJson :=
        match convert_raw_to_midi_json input.musics (some base_bpm) vfuel pnfuel with
        | .ok j => some j
        | .error _ => none
      .ok ⟨p.1, p.2, base_bpm, midi⟩

theorem basebeats_one_multiplier : get_base_beats_multiplier (.num 1) = .ok 15 := by
  unfold get_base_beats_multiplier BASEBEATS_MAP_Q
  norm_num [List.lookup,
    show ((1 : ℚ) == 15) = false from beq_eq_false_iff_ne.mpr (by norm_num),
    show ((1 : ℚ) == 15 / 2) = false from beq_eq_false_iff_ne.mpr (by norm_num),
    show ((1 : ℚ) == 5) = false from beq_eq_false_iff_ne.mpr (by norm_num),
    show ((1 : ℚ) == 15 / 4) = false from beq_eq_false_iff_ne.mpr (by norm_num),
    show ((1 : ℚ) == 3) = false from beq_eq_false_iff_ne.mpr (by norm_num),
    show ((1 : ℚ) == 5 / 2) = false from beq_eq_false_iff_ne.mpr (by norm_num),
    show ((1 : ℚ) == 15 / 8) = false from beq_eq_false_iff_ne.mpr (by norm_num),
    show ((1 : ℚ) == 3 / 2) = false from beq_eq_false_iff_ne.mpr (by norm_num),
    show ((1 : ℚ) == 5 / 4) = false from beq_eq_false_iff_ne.mpr (by norm_num),
    beq_self_eq_true]

theorem sd_checked_60_1 :
    sd_divide_checked ((60 : ℕ) : ℚ) ((0 + 1 : ℕ) : ℚ) 0 = .ok (60, 0) := by
  unfold sd_divide_checked sd_divide
  norm_num

theorem process_notes_single_48 (b : ℚ) :
    process_notes 10 [48] 60 b = .ok [⟨0, 48⟩, ⟨2, 60⟩, ⟨1, 48⟩] := by
  have hred : process_notes 10 [48] 60 b =
      (match sd_divide_checked ((60 : ℕ) : ℚ) ((0 + 1 : ℕ) : ℚ) 0 with
        | .error e => .error e
        | .ok (q, _) => .ok (normal_flush [48] q.toNat)) := rfl
  rw [hred, sd_checked_60_1]
  rfl

theorem parse_track_paren (b : ℚ) :
    parse_track ['('] b 15 10 = .error .incompleteScore := rfl

theorem parse_track_cN (b : ℚ) :
    parse_track ['(', 'c', ')', '[', 'N', ']'] b 15 10 =
      .ok ⟨15, [⟨0, 48⟩, ⟨2, 60⟩, ⟨1, 48⟩]⟩ := by
  have hgo : parse_track_go b 15 10 (['(', 'c', ')', '[', 'N', ']'] : Str).length
      ['(', 'c', ')', '[', 'N', ']'] 0 [] [] =
      (match process_notes 10 [48] 60 b with
        | .error e => .error e
        | .ok block => parse_track_go b 15 10 1 [']'] 6 [] ([] ++ block)) := rfl
  unfold parse_track
  rw [hgo, process_notes_single_48 b]
  rfl

theorem parse_tracks_cN (b : ℚ) :
    parse_tracks b 15 10 [['(', 'c', ')', '[', 'N', ']']] =
      .ok [⟨15, [⟨0, 48⟩, ⟨2, 60⟩, ⟨1, 48⟩]⟩] := by
  simp [parse_tracks, parse_track_cN b]

theorem parse_song_cN :
    parse_song_go (some (120 : ℚ)) 20 10
      [⟨.num 0, none, .num 1, [['(', 'c', ')', '[', 'N', ']']]⟩] =
      .ok [⟨1800, 15, [⟨15, [⟨0, 48⟩, ⟨2, 60⟩, ⟨1, 48⟩]⟩]⟩] := by
  unfold parse_song_go
  rw [basebeats_one_multiplier]
  simp only [parse_tracks_cN, verify_track_length, verify_rest, parse_song_go]
  norm_num [JVal.toQ]

theorem convert_cN :
    convert_raw_to_midi_json [⟨.num 0, none, .num 1, [['(', 'c', ')', '[', 'N', ']']]⟩]
      (some (120 : ℚ)) 20 10 =
      .ok ⟨⟨960, [⟨0, 60, 0⟩]⟩,
        [⟨0, [⟨48, 0, 0, 1 / 16, 60, 100 / 127, 64 / 127⟩]⟩]⟩ := by
  unfold convert_raw_to_midi_json
  rw [parse_song_cN]
  have hrun : prun [⟨0, 48⟩, ⟨2, 60⟩, ⟨1, 48⟩] ⟨((0 : ℕ) : ℤ), [], []⟩ =
      ⟨60, [], [mk_note 48 0 60]⟩ := rfl
  have halign : align_tracks_across_parts [⟨1800, 15, [⟨15, [⟨0, 48⟩, ⟨2, 60⟩, ⟨1, 48⟩]⟩]⟩] =
      [⟨1800, 15, [⟨15, [⟨0, 48⟩, ⟨2, 60⟩, ⟨1, 48⟩]⟩]⟩] := rfl
  have hparts : convert_parts_go
      [⟨1800, 15, [⟨15, [⟨0, 48⟩, ⟨2, 60⟩, ⟨1, 48⟩]⟩]⟩] 0 [] [] =
      ([⟨((0 : ℕ) : ℚ), 1800 / 30, 0⟩], [⟨0, [mk_note 48 0 60]⟩], 60) := rfl
  have hsort : sort_by_key (fun tp => tp.ticks) [(⟨((0 : ℕ) : ℚ), 1800 / 30, 0⟩ : MidiTempo)] =
      [⟨((0 : ℕ) : ℚ), 1800 / 30, 0⟩] := rfl
  show Except.ok (convert_to_midi_json
      [⟨1800, 15, [⟨15, [⟨0, 48⟩, ⟨2, 60⟩, ⟨1, 48⟩]⟩]⟩]) =
    Except.ok (⟨⟨960, [⟨0, 60, 0⟩]⟩,
      [⟨0, [⟨48, 0, 0, 1 / 16, 60, 100 / 127, 64 / 127⟩]⟩]⟩ : MidiJson)
  unfold convert_to_midi_json
  simp only [halign, hparts, hsort]
  unfold calculate_tempo_times calculate_times
  simp only [List.map]
  unfold ticks_to_seconds
  simp only [ticks_to_seconds_go]
  norm_num [mk_note, MidiTempo.mk.injEq, MidiNote.mk.injEq, MidiTrack.mk.injEq,
    MidiHeader.mk.injEq, MidiJson.mk.injEq]

/-- C7. When validation succeeds but the MIDI conversion throws, the loader
still returns the combined row sequence and per-section metadata of the pure
row pipeline, with the timeline field null, instead of failing: row
generation is untouched by the conversion failure. -/
theorem c7_rows_survive_midi_failure (input : MusicInputFile) (vfuel pnfuel : Nat)
    (e : Err) (hv : validate_music_input input = .ok ())
    (hc : convert_raw_to_midi_json input.musics (some input.baseBpm.toQ) vfuel pnfuel =
      .error e) :
    parse_and_combine_musics input vfuel pnfuel = .ok
      ⟨(combine_go (sort_by_key (fun m => m.id.toQ) input.musics) input.baseBpm.toQ 0).1,
        (combine_go (sort_by_key (fun m => m.id.toQ) input.musics) input.baseBpm.toQ 0).2,
        input.baseBpm.toQ, none⟩ := by
  unfold parse_and_combine_musics
  rw [hv]
  simp only [hc]

theorem parse_score_paren : parse_score ['('] = [⟨0, RowType.SINGLE⟩] := rfl

theorem process_music_paren :
    process_music (1 : ℚ) [['(']] = [⟨RowType.SINGLE, 1⟩] := by
  have hpc : parse_component (trimStr ['(']) = ⟨0, RowType.SINGLE⟩ := rfl
  simp only [process_music, parse_score_paren, build_timeline, build_timeline_go,
    blend_tracks, generate_results, List.enum, List.foldl, List.map, JVal.toQ]
  norm_num [hpc]
  rfl

theorem parse_song_paren :
    parse_song_go (some (120 : ℚ)) 20 10
      [⟨.num 0, none, .num 1, [['(']]⟩] = .error .incompleteScore := by
  unfold parse_song_go
  rw [basebeats_one_multiplier]
  simp [parse_tracks, parse_track_paren]

theorem convert_paren :
    convert_raw_to_midi_json [⟨.num 0, none, .num 1, [['(']]⟩]
      (some (120 : ℚ)) 20 10 = .error .incompleteScore := by
  unfold convert_raw_to_midi_json
  rw [parse_song_paren]

/-- C7 witness: a level whose single score parses for the row pipeline but
fails the rich-notation scanner; the loader returns the rows with a null
timeline. -/
theorem c7_witness :
    parse_and_combine_musics ⟨.num 120, [⟨.num 0, none, .num 1, [['(']]⟩]⟩ 20 10 =
      .ok ⟨[⟨RowType.SINGLE, 1⟩], [⟨0, 2, 0, 1, 1⟩], 120, none⟩ := by
  have h := c7_rows_survive_midi_failure ⟨.num 120, [⟨.num 0, none, .num 1, [['(']]⟩]⟩
    20 10 .incompleteScore rfl convert_paren
  rw [h]
  have hsort1 : sort_by_key (fun m => m.id.toQ)
      [(⟨.num 0, none, .num 1, [['(']]⟩ : MusicEntry)] =
      [⟨.num 0, none, .num 1, [['(']]⟩] := rfl
  simp only [hsort1, combine_go, process_music_paren, calculate_tps, JVal.toQ]
  norm_num [MusicMetadata.mk.injEq, LevelData.mk.injEq]

/-- C3 counterexample: the input exactly as the claim writes it, with
baseBeats the string value, is rejected by validate_music_input before any
parsing, so the compilation does not succeed. -/
theorem c3_counterexample :
    parse_and_combine_musics
      ⟨.num 120, [⟨.num 0, none, .str "1", [['(', 'c', ')', '[', 'N', ']']]⟩]⟩ 20 10 =
      .error .structural := rfl

theorem parse_score_cN :
    parse_score ['(', 'c', ')', '[', 'N', ']'] = [⟨4, RowType.SINGLE⟩] := rfl

theorem process_music_cN :
    process_music (1 : ℚ) [['(', 'c', ')', '[', 'N', ']']] =
      [⟨RowType.SINGLE, 1⟩] := by
  have hpc : parse_component (trimStr ['(', 'c', ')', '[', 'N', ']']) =
      ⟨4, RowType.SINGLE⟩ := rfl
  simp only [process_music, parse_score_cN, build_timeline, build_timeline_go,
    blend_tracks, generate_results, List.enum, List.foldl, List.map, JVal.toQ]
  norm_num [hpc]
  rfl

/-- C3 amended: with baseBeats given as the number 1 (the string form of the
claim is rejected by validation), the one-section level compiles to exactly
one SINGLE row of height multiplier 1 and a timeline with exactly one note
of pitch 48, the table value of the note name c, at start time 0. -/
theorem c3_amended_end_to_end :
    parse_and_combine_musics
      ⟨.num 120, [⟨.num 0, none, .num 1, [['(', 'c', ')', '[', 'N', ']']]⟩]⟩ 20 10 =
      .ok ⟨[⟨RowType.SINGLE, 1⟩], [⟨0, 2, 0, 1, 1⟩], 120,
        some ⟨⟨960, [⟨0, 60, 0⟩]⟩,
          [⟨0, [⟨48, 0, 0, 1 / 16, 60, 100 / 127, 64 / 127⟩]⟩]⟩⟩ := by
  unfold parse_and_combine_musics
  rw [show validate_music_input
      ⟨.num 120, [⟨.num 0, none, .num 1, [['(', 'c', ')', '[', 'N', ']']]⟩]⟩ =
      .ok () from rfl]
  have hsort1 : sort_by_key (fun m => m.id.toQ)
      [(⟨.num 0, none, .num 1, [['(', 'c', ')', '[', 'N', ']']]⟩ : MusicEntry)] =
      [⟨.num 0, none, .num 1, [['(', 'c', ')', '[', 'N', ']']]⟩] := rfl
  simp only [convert_cN, hsort1, combine_go, process_music_cN, calculate_tps, JVal.toQ]
  norm_num [MusicMetadata.mk.injEq, LevelData.mk.injEq]

/-- C6 witness: the amended equivalence instantiated at a concrete pending
list with one arpeggio kind appearing twice. -/
theorem c6_witness :
    process_notes 5 [3, 3] 60 120 = .error .operators ↔
      1 < operator_count [3, 3] ∨ 1 < count_of [3, 3] 6 :=
  (c6_amended 5 [3, 3] 60 120).1

end HeartTiles
